import Mathlib

/-!
Verification of the sproto-js codec (src/sproto.ts).

The TypeScript source is shallowly embedded below.  Byte buffers are
`List Nat` (JS arrays of byte values); fallible operations return
`Option`/`Except`.  Each section names the source function it embeds.
-/

namespace Sproto

/-! ## Pack / unpack framer (`sprotoPack`, `packSeg`, `writeFf`, `sprotoUnpack`)

`sprotoPack` (src/sproto.ts:1148) walks the input in aligned 8-byte
segments (the last one right-padded with zeros, lines 1163-1175).  For each
segment `packSeg` (line 1096) counts the non-zero bytes: with no dense run
open, a segment with all 8 bytes non-zero returns 10 and opens a run
(`ffN = 1`, lines 1179-1184); with a run open, a segment with ≥ 6 non-zero
bytes returns 8 and extends the run (line 1118-1120, 1185-1192, flushing at
256 blocks); any other segment is emitted sparsely (header bitmask byte
followed by the non-zero bytes) after flushing an open run via `writeFf`
(lines 1134-1146, 1193-1199).  A run still open at the end of the input is
flushed (lines 1205-1210); `writeFf` emits `0xFF`, the block count minus
one, and the raw (zero-padded) bytes of the run.  The `bufsz` budget starts
at `1 << 30` (line 1159) and is never exhausted for inputs below a gigabyte,
so it is not modelled.  The mutable-buffer algorithm is rendered
functionally: an open run is carried as the list of its 8-byte blocks, and
every `writeFf` call in the source overwrites exactly the region the run's
provisional segments occupied (10 + 8·(ffN−1) = 2 + 8·ffN bytes), so the
emitted stream is the concatenation produced here. -/

/-- Number of non-zero bytes of a segment (`notzero` in `packSeg`). -/
def nzCount (blk : List Nat) : Nat := (blk.filter (fun x => x != 0)).length

/-- The sparse-segment header bitmask: bit `i` is set iff byte `i` is
non-zero (`header |= 1 << i`, src/sproto.ts:1109). -/
def headerByte : List Nat → Nat
  | [] => 0
  | x :: xs => (if x != 0 then 1 else 0) + 2 * headerByte xs

/-- A sparse segment: header bitmask then the non-zero bytes in order
(`packSeg`, src/sproto.ts:1096-1131). -/
def packSeg (blk : List Nat) : List Nat := headerByte blk :: blk.filter (fun x => x != 0)

/-- Flush a dense run: `0xFF`, number of 8-byte blocks minus one, then the
raw bytes (`writeFf`, src/sproto.ts:1134-1146).  An empty run flushes to
nothing. -/
def writeFf (run : List (List Nat)) : List Nat :=
  match run with
  | [] => []
  | _ => 255 :: (run.length - 1) :: run.flatten

/-- The segment loop of `sprotoPack` (src/sproto.ts:1161-1210).  `run` is
the open dense run (`ffN = run.length`). -/
def packLoop : List (List Nat) → List (List Nat) → List Nat
  | [], run => writeFf run
  | blk :: bs, run =>
    if run.isEmpty then
      if nzCount blk == 8 then packLoop bs [blk]
      else packSeg blk ++ packLoop bs []
    else
      if 6 ≤ nzCount blk then
        if run.length + 1 == 256 then writeFf (run ++ [blk]) ++ packLoop bs []
        else packLoop bs (run ++ [blk])
      else writeFf run ++ packSeg blk ++ packLoop bs []

/-- Split the input into aligned 8-byte segments, right-padding the final
one with zeros (src/sproto.ts:1163-1175).  The first argument is fuel,
instantiated with the input length. -/
def toBlocksGo : Nat → List Nat → List (List Nat)
  | 0, _ => []
  | _ + 1, [] => []
  | fuel + 1, x :: xs =>
    ((x :: xs).take 8 ++ List.replicate (8 - (x :: xs).length) 0) ::
      toBlocksGo fuel ((x :: xs).drop 8)

/-- `api.pack` (src/sproto.ts:1282-1288): pack a whole byte array into a
fresh buffer. -/
def sprotoPack (l : List Nat) : List Nat := packLoop (toBlocksGo l.length l) []

/-- The low `n` bits of `h`, least significant first (the loop
`(header >>> i) & 1`, src/sproto.ts:1253-1254). -/
def bitsList : Nat → Nat → List Bool
  | 0, _ => []
  | n + 1, h => (h % 2 == 1) :: bitsList n (h / 2)

/-- The sparse branch of `sprotoUnpack` (src/sproto.ts:1252-1275): for each
bit, emit the next input byte (bit set) or a zero (bit clear).  `neg`
records that `srcsz` has gone negative (a byte was consumed past the end of
the input, which the source reads as `undefined` and we model as 0); a
further set bit then aborts with `-1` (line 1256-1257).  Returns the bytes
written, the remaining input, the final `neg` flag and the abort flag. -/
def unpackBits : List Bool → List Nat → Bool → (List Nat × List Nat × Bool × Bool)
  | [], src, neg => ([], src, neg, false)
  | b :: bs, src, neg =>
    if b then
      if neg then ([], src, neg, true)
      else
        match src with
        | x :: xs =>
          let r := unpackBits bs xs neg
          (x :: r.1, r.2.1, r.2.2.1, r.2.2.2)
        | [] =>
          let r := unpackBits bs [] true
          (0 :: r.1, r.2.1, r.2.2.1, r.2.2.2)
    else
      let r := unpackBits bs src neg
      (0 :: r.1, r.2.1, r.2.2.1, r.2.2.2)

/-- The loop of `sprotoUnpack` (src/sproto.ts:1220-1279).  Fuel is
instantiated with the input length (each iteration consumes at least the
header byte).  Returns the bytes written to the output buffer together with
an error flag (`true` where the source returns `-1`; `api.unpack` returns
the buffer in both cases).  A `0xFF` header at the very end of the input
makes the source compute `n = NaN` and fall out of the loop without
writing, which is the `rest = []` case below. -/
def unpackGo : Nat → List Nat → (List Nat × Bool)
  | 0, _ => ([], false)
  | _ + 1, [] => ([], false)
  | fuel + 1, h :: rest =>
    if h == 255 then
      match rest with
      | [] => ([], false)
      | c :: rest2 =>
        let n := (c + 1) * 8
        if rest2.length < n then ([], true)
        else
          let r := unpackGo fuel (rest2.drop n)
          (rest2.take n ++ r.1, r.2)
    else
      let u := unpackBits (bitsList 8 h) rest false
      if u.2.2.2 then (u.1, true)
      else if u.2.2.1 then (u.1, false)
      else
        let r := unpackGo fuel u.2.1
        (u.1 ++ r.1, r.2)

/-- `sprotoUnpack` on a whole input (src/sproto.ts:1220). -/
def sprotoUnpack (src : List Nat) : List Nat × Bool := unpackGo src.length src

/-- `api.unpack` (src/sproto.ts:1290-1296): the output buffer (returned
whether or not the loop reported an error). -/
def apiUnpack (src : List Nat) : List Nat := (sprotoUnpack src).1

/-! ### Lemmas about the framer -/

theorem unpackGo_nil : ∀ f, unpackGo f ([] : List Nat) = ([], false) := by
  intro f
  cases f <;> rfl

theorem toBlocksGo_nil : ∀ f, toBlocksGo f ([] : List Nat) = [] := by
  intro f
  cases f <;> rfl

theorem unpackBits_rest_le : ∀ bs (src : List Nat) neg,
    (unpackBits bs src neg).2.1.length ≤ src.length := by
  intro bs
  induction bs with
  | nil => intro src neg; simp [unpackBits]
  | cons b bs ih =>
    intro src neg
    cases b with
    | false => simpa [unpackBits] using ih src neg
    | true =>
      cases neg with
      | true => simp [unpackBits]
      | false =>
        cases src with
        | nil => simpa [unpackBits] using Nat.le_zero.mpr (Nat.le_zero.mp (ih [] true))
        | cons x xs =>
          simpa [unpackBits] using Nat.le_succ_of_le (ih xs false)

theorem unpackGo_congr : ∀ f1 f2 (src : List Nat), src.length ≤ f1 → src.length ≤ f2 →
    unpackGo f1 src = unpackGo f2 src := by
  intro f1
  induction f1 with
  | zero =>
    intro f2 src h1 _
    have : src = [] := List.eq_nil_of_length_eq_zero (Nat.le_zero.mp h1)
    subst this
    rw [unpackGo_nil, unpackGo_nil]
  | succ f ih =>
    intro f2 src h1 h2
    cases src with
    | nil => rw [unpackGo_nil, unpackGo_nil]
    | cons h rest =>
      cases f2 with
      | zero => exact absurd h2 (by simp)
      | succ g =>
        simp only [unpackGo]
        by_cases h255 : h == 255
        · simp only [h255, if_true]
          cases rest with
          | nil => rfl
          | cons c rest2 =>
            by_cases hlt : rest2.length < (c + 1) * 8
            · simp [hlt]
            · simp only [if_neg hlt]
              have hle : (rest2.drop ((c + 1) * 8)).length ≤ rest2.length := by
                simp [List.length_drop]
              have e := ih g (rest2.drop ((c + 1) * 8))
                (by simp at h1; omega) (by simp at h2; omega)
              rw [e]
        · simp only [Bool.not_eq_true] at h255
          simp only [h255, Bool.false_eq_true, if_false]
          have hle := unpackBits_rest_le (bitsList 8 h) rest false
          have e := ih g ((unpackBits (bitsList 8 h) rest false).2.1)
            (by simp at h1; omega) (by simp at h2; omega)
          rw [e]

theorem unpackGo_eq (f : Nat) (src : List Nat) (h : src.length ≤ f) :
    unpackGo f src = sprotoUnpack src :=
  unpackGo_congr f src.length src h le_rfl

theorem bitsList_headerByte : ∀ blk : List Nat,
    bitsList blk.length (headerByte blk) = blk.map (fun x => x != 0) := by
  intro blk
  induction blk with
  | nil => rfl
  | cons x xs ih =>
    have hb : (if x != 0 then 1 else 0) + 2 * headerByte xs = headerByte (x :: xs) := rfl
    simp only [List.length_cons, bitsList, List.map_cons, ← hb]
    rw [List.cons_eq_cons]
    constructor
    · by_cases hx : x = 0
      · simp [hx, Nat.mul_mod_right]
      · simp [hx, Nat.add_mul_mod_self_left]
    · have hdiv : ((if x != 0 then 1 else 0) + 2 * headerByte xs) / 2 = headerByte xs := by
        by_cases hx : x = 0
        · simp [hx]
        · simp [hx]
          omega
      rw [hdiv, ih]

theorem unpackBits_filter : ∀ (blk rest : List Nat),
    unpackBits (blk.map (fun x => x != 0)) (blk.filter (fun x => x != 0) ++ rest) false =
      (blk, rest, false, false) := by
  intro blk
  induction blk with
  | nil => intro rest; rfl
  | cons x xs ih =>
    intro rest
    by_cases hx : x = 0
    · simp only [hx, List.map_cons, List.filter_cons]
      simp only [show ((0 : Nat) != 0) = false from rfl]
      simp [unpackBits, ih rest]
    · have hx' : (x != 0) = true := by simpa using hx
      simp only [List.map_cons, List.filter_cons, hx', if_true, List.cons_append]
      simp [unpackBits, ih rest]

theorem filter_length_le (blk : List Nat) :
    (blk.filter (fun x => x != 0)).length ≤ blk.length :=
  List.length_filter_le _ _

theorem headerByte_max : ∀ blk : List Nat,
    headerByte blk = 2 ^ blk.length - 1 → nzCount blk = blk.length := by
  intro blk
  induction blk with
  | nil => intro _; rfl
  | cons x xs ih =>
    intro h
    have hlt : headerByte xs ≤ 2 ^ xs.length - 1 := by
      have : ∀ l : List Nat, headerByte l < 2 ^ l.length := by
        intro l
        induction l with
        | nil => simp [headerByte]
        | cons y ys ihy =>
          simp only [headerByte, List.length_cons, pow_succ]
          by_cases hy : y = 0 <;> simp [hy] <;> omega
      have := this xs
      omega
    have hpow : (1 : Nat) ≤ 2 ^ xs.length := Nat.one_le_two_pow
    simp only [headerByte, List.length_cons, pow_succ] at h
    by_cases hx : x = 0
    · simp only [hx] at h
      simp at h
      omega
    · have hx' : (x != 0) = true := by simpa using hx
      simp only [hx', if_true] at h
      have h2 : headerByte xs = 2 ^ xs.length - 1 := by omega
      have := ih h2
      simp only [nzCount, List.filter_cons, hx', if_true, List.length_cons] at *
      omega

theorem headerByte_ne_255 (blk : List Nat) (hlen : blk.length = 8) (hnz : nzCount blk ≠ 8) :
    headerByte blk ≠ 255 := by
  intro h
  exact hnz (by simpa [hlen] using headerByte_max blk (by rw [hlen]; simpa using h))

theorem unpackBits_no_abort_len : ∀ bs (src : List Nat) neg,
    (unpackBits bs src neg).2.2.2 = false → (unpackBits bs src neg).1.length = bs.length := by
  intro bs
  induction bs with
  | nil => intro src neg _; rfl
  | cons b bs ih =>
    intro src neg
    cases b with
    | false =>
      intro h
      simp only [unpackBits] at h ⊢
      simpa using ih src neg h
    | true =>
      cases neg with
      | true => intro h; simp [unpackBits] at h
      | false =>
        cases src with
        | nil =>
          intro h
          simp only [unpackBits] at h ⊢
          simpa using ih [] true h
        | cons x xs =>
          intro h
          simp only [unpackBits] at h ⊢
          simpa using ih xs false h

theorem sprotoUnpack_packSeg (blk rest : List Nat) (hlen : blk.length = 8)
    (hnz : nzCount blk ≠ 8) :
    sprotoUnpack (packSeg blk ++ rest) =
      (blk ++ (sprotoUnpack rest).1, (sprotoUnpack rest).2) := by
  have h255 : (headerByte blk == 255) = false := by
    simpa using headerByte_ne_255 blk hlen hnz
  have hu : unpackBits (bitsList 8 (headerByte blk))
      (blk.filter (fun x => x != 0) ++ rest) false = (blk, rest, false, false) := by
    rw [← hlen, bitsList_headerByte]
    exact unpackBits_filter blk rest
  show unpackGo (packSeg blk ++ rest).length (packSeg blk ++ rest) = _
  simp only [packSeg, List.cons_append, List.length_cons, List.length_append]
  simp only [unpackGo, h255, Bool.false_eq_true, if_false, hu]
  rw [unpackGo_eq _ rest (by have := filter_length_le blk; omega)]

theorem flatten_length (run : List (List Nat)) (h8 : ∀ b ∈ run, b.length = 8) :
    run.flatten.length = 8 * run.length := by
  induction run with
  | nil => rfl
  | cons b bs ih =>
    simp only [List.flatten_cons, List.length_append, List.length_cons,
      h8 b (by simp), ih (fun x hx => h8 x (by simp [hx]))]
    ring

theorem sprotoUnpack_writeFf (run : List (List Nat)) (rest : List Nat)
    (hne : run ≠ []) (h8 : ∀ b ∈ run, b.length = 8) :
    sprotoUnpack (writeFf run ++ rest) =
      (run.flatten ++ (sprotoUnpack rest).1, (sprotoUnpack rest).2) := by
  obtain ⟨r, rs, rfl⟩ : ∃ r rs, run = r :: rs := by
    cases run with
    | nil => exact absurd rfl hne
    | cons r rs => exact ⟨r, rs, rfl⟩
  have hfl : (r :: rs).flatten.length = 8 * (r :: rs).length := flatten_length _ h8
  show unpackGo _ _ = _
  simp only [writeFf, List.cons_append, List.length_cons, List.length_append]
  simp only [unpackGo, show ((255 : Nat) == 255) = true from rfl, if_true]
  have hflc : (rs.length + 1 - 1 + 1) * 8 = (r :: rs).flatten.length := by
    simp only [Nat.add_sub_cancel, hfl, List.length_cons]
    ring
  rw [hflc]
  have hnotlt : ¬ ((r :: rs).flatten ++ rest).length < (r :: rs).flatten.length := by
    simp only [List.length_append]
    omega
  simp only [if_neg hnotlt]
  rw [List.take_left, List.drop_left]
  rw [unpackGo_eq _ rest (by omega)]

theorem nzCount_le (blk : List Nat) (h : blk.length = 8) : nzCount blk ≤ 8 :=
  h ▸ filter_length_le blk

theorem sprotoUnpack_nil : sprotoUnpack [] = ([], false) := rfl

theorem sprotoUnpack_packLoop : ∀ (bs run : List (List Nat)),
    (∀ b ∈ bs, b.length = 8) → (∀ b ∈ run, b.length = 8) → run.length ≤ 255 →
    sprotoUnpack (packLoop bs run) = (run.flatten ++ bs.flatten, false) := by
  intro bs
  induction bs with
  | nil =>
    intro run _ hrun _
    cases run with
    | nil => rfl
    | cons r rs =>
      have h := sprotoUnpack_writeFf (r :: rs) [] (by simp) hrun
      rw [List.append_nil] at h
      show sprotoUnpack (writeFf (r :: rs)) = _
      rw [h, sprotoUnpack_nil]
      simp
  | cons blk bs ih =>
    intro run hbs hrun hlen
    have hblk : blk.length = 8 := hbs blk (by simp)
    have hbs' : ∀ b ∈ bs, b.length = 8 := fun b hb => hbs b (by simp [hb])
    cases run with
    | nil =>
      by_cases h8 : nzCount blk = 8
      · have hb : (nzCount blk == 8) = true := by simpa using h8
        rw [show packLoop (blk :: bs) [] = packLoop bs [blk] by
          simp [packLoop, hb]]
        rw [ih [blk] hbs' (by simpa using hblk) (by simp)]
        simp
      · have hb : (nzCount blk == 8) = false := by simpa using h8
        rw [show packLoop (blk :: bs) [] = packSeg blk ++ packLoop bs [] by
          simp [packLoop, hb]]
        rw [sprotoUnpack_packSeg blk _ hblk h8, ih [] hbs' (by simp) (by simp)]
        simp
    | cons r rs =>
      have hrun' : ∀ b ∈ (r :: rs) ++ [blk], b.length = 8 := by
        intro b hb
        rcases List.mem_append.mp hb with h | h
        · exact hrun b h
        · simp only [List.mem_singleton] at h
          exact h ▸ hblk
      have hcons : packLoop (blk :: bs) (r :: rs) =
          if 6 ≤ nzCount blk then
            if (r :: rs).length + 1 == 256 then
              writeFf ((r :: rs) ++ [blk]) ++ packLoop bs []
            else packLoop bs ((r :: rs) ++ [blk])
          else writeFf (r :: rs) ++ packSeg blk ++ packLoop bs [] := by
        simp only [packLoop, List.isEmpty_cons, Bool.false_eq_true, if_false]
      by_cases h6 : 6 ≤ nzCount blk
      · by_cases h256 : (r :: rs).length + 1 = 256
        · have hb : ((r :: rs).length + 1 == 256) = true := by simpa using h256
          rw [hcons, if_pos h6, if_pos hb]
          rw [sprotoUnpack_writeFf _ _ (by simp) hrun',
            ih [] hbs' (by simp) (by simp)]
          simp
        · have hb : ((r :: rs).length + 1 == 256) = false := by simpa using h256
          rw [hcons, if_pos h6, if_neg (by rw [hb]; exact Bool.false_ne_true)]
          rw [ih ((r :: rs) ++ [blk]) hbs' hrun'
            (by
              simp only [List.length_append, List.length_cons, List.length_nil]
                at hlen h256 ⊢
              omega)]
          simp
      · have h8 : nzCount blk ≠ 8 := by omega
        rw [hcons, if_neg h6, List.append_assoc]
        rw [sprotoUnpack_writeFf _ _ (by simp) hrun,
          sprotoUnpack_packSeg blk _ hblk h8, ih [] hbs' (by simp) (by simp)]
        simp

theorem toBlocksGo_length : ∀ (fuel : Nat) (l : List Nat), l.length ≤ fuel →
    ∀ b ∈ toBlocksGo fuel l, b.length = 8 := by
  intro fuel
  induction fuel with
  | zero => intro l _ b hb; simp [toBlocksGo] at hb
  | succ f ih =>
    intro l hl b hb
    cases l with
    | nil => simp [toBlocksGo] at hb
    | cons x xs =>
      simp only [toBlocksGo, List.mem_cons] at hb
      rcases hb with h | h
      · subst h
        simp only [List.length_append, List.length_take, List.length_replicate,
          List.length_cons]
        omega
      · exact ih _ (by simp only [List.length_drop, List.length_cons] at *; omega) b h

theorem toBlocksGo_flatten : ∀ (fuel : Nat) (l : List Nat), l.length ≤ fuel →
    (toBlocksGo fuel l).flatten = l ++ List.replicate ((8 - l.length % 8) % 8) 0 := by
  intro fuel
  induction fuel with
  | zero =>
    intro l hl
    have : l = [] := List.eq_nil_of_length_eq_zero (Nat.le_zero.mp hl)
    subst this
    rfl
  | succ f ih =>
    intro l hl
    cases l with
    | nil => rfl
    | cons x xs =>
      simp only [toBlocksGo, List.flatten_cons, List.append_assoc]
      rw [ih _ (by simp only [List.length_drop, List.length_cons] at *; omega)]
      by_cases hge : (x :: xs).length ≥ 8
      · have h1 : (8 : Nat) - (x :: xs).length = 0 := by omega
        rw [h1]
        simp only [List.replicate_zero, List.nil_append]
        rw [← List.append_assoc, List.take_append_drop]
        have h2 : ((x :: xs).drop 8).length = (x :: xs).length - 8 := by
          simp [List.length_drop]
        rw [h2]
        have h3 : ((x :: xs).length - 8) % 8 = (x :: xs).length % 8 := by omega
        rw [h3]
      · have h1 : (x :: xs).take 8 = x :: xs :=
          List.take_of_length_le (by omega)
        have h2 : (x :: xs).drop 8 = [] :=
          List.drop_eq_nil_of_le (by omega)
        rw [h1, h2]
        simp only [List.length_cons] at hge
        simp
        omega

/-! ### Claim C1: `unpack(pack(b)) = b` -/

/-- C1 counterexample: the claim `unpack(pack(b)) = b` fails for `b = [1]`,
whose length is not a multiple of 8: `pack [1] = [0x01, 0x01]` and
unpacking that yields the zero-padded 8-byte segment
`[1,0,0,0,0,0,0,0] ≠ [1]`. -/
theorem pack_unpack_not_id : apiUnpack (sprotoPack [1]) ≠ [1] := by decide

/-- C1 (amended): for every byte array `b`, `unpack(pack(b))` succeeds and
returns `b` right-padded with zeros to the next multiple of 8 (so it equals
`b` exactly iff the length of `b` is a multiple of 8). -/
theorem pack_unpack_padded (b : List Nat) :
    sprotoUnpack (sprotoPack b) =
      (b ++ List.replicate ((8 - b.length % 8) % 8) 0, false) := by
  show sprotoUnpack (packLoop (toBlocksGo b.length b) []) = _
  rw [sprotoUnpack_packLoop (toBlocksGo b.length b) []
    (toBlocksGo_length b.length b le_rfl) (by simp) (by simp)]
  rw [toBlocksGo_flatten b.length b le_rfl]
  rfl

/-! ### Claim C6: when dense (`0xFF`) segments are emitted -/

/-- C6 counterexample: a single 8-byte segment with exactly 6 non-zero
bytes is emitted as a sparse segment (header `0x3F` plus the six bytes),
not as a dense `0xFF` segment: with no dense run open, `packSeg` only
returns 8/10 (dense) when all 8 bytes are non-zero
(src/sproto.ts:1118-1127, `n > 0` fails). -/
theorem single_six_nonzero_is_sparse :
    sprotoPack [1, 1, 1, 1, 1, 1, 0, 0] = [63, 1, 1, 1, 1, 1, 1] ∧
      255 ∉ sprotoPack [1, 1, 1, 1, 1, 1, 0, 0] := by decide

theorem packLoop_run_extend : ∀ (rest : List (List Nat)) (acc post : List (List Nat)),
    acc ≠ [] → acc.length + rest.length ≤ 255 → (∀ b ∈ rest, 6 ≤ nzCount b) →
    (post = [] ∨ ∃ p ps, post = p :: ps ∧ nzCount p ≤ 5) →
    packLoop (rest ++ post) acc = writeFf (acc ++ rest) ++ packLoop post [] := by
  intro rest
  induction rest with
  | nil =>
    intro acc post hne _ _ hpost
    obtain ⟨a, as, rfl⟩ : ∃ a as, acc = a :: as := by
      cases acc with
      | nil => exact absurd rfl hne
      | cons a as => exact ⟨a, as, rfl⟩
    rcases hpost with rfl | ⟨p, ps, rfl, hp5⟩
    · simp [packLoop, writeFf]
    · have h6 : ¬ 6 ≤ nzCount p := by omega
      have h8 : (nzCount p == 8) = false := by
        simp only [beq_eq_false_iff_ne, ne_eq]
        omega
      simp only [List.nil_append, List.append_nil]
      conv_lhs => simp only [packLoop, List.isEmpty_cons, Bool.false_eq_true, if_false]
      rw [if_neg h6]
      conv_rhs => simp only [packLoop, List.isEmpty_nil, if_true, h8,
        Bool.false_eq_true, if_false]
      simp [List.append_assoc]
  | cons b bs ih =>
    intro acc post hne hlen hrest hpost
    obtain ⟨a, as, rfl⟩ : ∃ a as, acc = a :: as := by
      cases acc with
      | nil => exact absurd rfl hne
      | cons a as => exact ⟨a, as, rfl⟩
    have h6 : 6 ≤ nzCount b := hrest b (by simp)
    have h256 : ((a :: as).length + 1 == 256) = false := by
      simp only [beq_eq_false_iff_ne, ne_eq, List.length_cons]
      simp only [List.length_cons, List.length_append] at hlen
      omega
    have hstep : packLoop ((b :: bs) ++ post) (a :: as) =
        packLoop (bs ++ post) ((a :: as) ++ [b]) := by
      conv_lhs => simp only [List.cons_append, packLoop, List.isEmpty_cons,
        Bool.false_eq_true, if_false]
      rw [if_pos h6, if_neg (by rw [h256]; exact Bool.false_ne_true)]
      rfl
    rw [hstep, ih ((a :: as) ++ [b]) post (by simp) (by
        simp only [List.length_append, List.length_cons, List.length_nil] at hlen ⊢
        omega)
      (fun x hx => hrest x (by simp [hx])) hpost]
    rw [List.append_assoc]
    simp

/-- C6 (amended): a dense (`0xFF`) segment is emitted exactly for a maximal
run of consecutive 8-byte segments whose FIRST segment has all 8 bytes
non-zero and whose later segments each have at least 6 non-zero bytes; a
run consisting of a single all-non-zero segment is still emitted in dense
form.  (A lone segment with only 6 or 7 non-zero bytes is sparse — see the
counterexample.)  Stated for runs of at most 255 blocks, below the source's
256-block flush. -/
theorem dense_run_characterisation (r : List Nat) (rs post : List (List Nat))
    (hfirst : nzCount r = 8) (hrest : ∀ b ∈ rs, 6 ≤ nzCount b)
    (hlen : rs.length ≤ 254)
    (hpost : post = [] ∨ ∃ p ps, post = p :: ps ∧ nzCount p ≤ 5) :
    packLoop ((r :: rs) ++ post) [] =
      255 :: rs.length :: (r :: rs).flatten ++ packLoop post [] := by
  have h8 : (nzCount r == 8) = true := by simpa using hfirst
  have hstep : packLoop ((r :: rs) ++ post) [] = packLoop (rs ++ post) [r] := by
    conv_lhs => simp only [List.cons_append, packLoop, List.isEmpty_nil, if_true,
      h8]
    rfl
  rw [hstep, packLoop_run_extend rs [r] post (by simp) (by simp; omega) hrest hpost]
  simp [writeFf]

/-- Witness for `dense_run_characterisation`: a single all-non-zero segment
packs to a 10-byte dense segment. -/
theorem dense_run_characterisation_witness :
    packLoop [[1, 2, 3, 4, 5, 6, 7, 8]] [] =
      255 :: 0 :: [1, 2, 3, 4, 5, 6, 7, 8] ++ packLoop [] [] :=
  dense_run_characterisation [1, 2, 3, 4, 5, 6, 7, 8] [] [] (by decide)
    (by intro b hb; cases hb) (by decide) (Or.inl rfl)

/-! ### Claim C10: unpack output length is a multiple of 8 -/

/-- C10 counterexample: on the truncated input `[0x03]` the sparse branch
writes one byte (for the first set bit, read past the end of the input) and
then aborts on the second set bit (src/sproto.ts:1256-1257), so
`api.unpack` returns a buffer of length 1. -/
theorem unpack_length_not_multiple : ¬ (8 ∣ (apiUnpack [3]).length) := by decide

/-- C10 (amended): whenever `sprotoUnpack` does not signal a truncation
error (returns a non-negative size), the output length is a multiple of 8:
each completed sparse header contributes exactly 8 bytes and each dense run
contributes `(count+1)*8` bytes. -/
theorem unpack_length_multiple_of_8 (src : List Nat)
    (h : (sprotoUnpack src).2 = false) : 8 ∣ (apiUnpack src).length := by
  have main : ∀ (fuel : Nat) (s : List Nat), (unpackGo fuel s).2 = false →
      8 ∣ (unpackGo fuel s).1.length := by
    intro fuel
    induction fuel with
    | zero => intro s _; simp [unpackGo]
    | succ f ih =>
      intro s hs
      cases s with
      | nil => simp [unpackGo]
      | cons h rest =>
        by_cases h255 : (h == 255) = true
        · simp only [unpackGo, h255, if_true] at hs ⊢
          cases rest with
          | nil => simp
          | cons c rest2 =>
            by_cases hlt : rest2.length < (c + 1) * 8
            · simp [hlt] at hs
            · simp only [if_neg hlt] at hs ⊢
              simp only [List.length_append, List.length_take]
              have := ih (rest2.drop ((c + 1) * 8)) hs
              obtain ⟨k, hk⟩ := this
              exact ⟨(c + 1) + k, by rw [hk]; omega⟩
        · simp only [Bool.not_eq_true] at h255
          simp only [unpackGo, h255, Bool.false_eq_true, if_false] at hs ⊢
          by_cases hab : (unpackBits (bitsList 8 h) rest false).2.2.2 = true
          · simp [hab] at hs
          · simp only [Bool.not_eq_true] at hab
            have hlen8 : (unpackBits (bitsList 8 h) rest false).1.length = 8 := by
              rw [unpackBits_no_abort_len _ _ _ hab]
              rfl
            by_cases hneg : (unpackBits (bitsList 8 h) rest false).2.2.1 = true
            · simp only [hab, Bool.false_eq_true, if_false, hneg, if_true]
              exact ⟨1, by rw [hlen8]⟩
            · simp only [Bool.not_eq_true] at hneg
              simp only [hab, hneg, Bool.false_eq_true, if_false] at hs ⊢
              obtain ⟨k, hk⟩ := ih _ hs
              exact ⟨1 + k, by simp only [List.length_append, hlen8, hk]; ring⟩
  exact main src.length src h

/-- Witness for `unpack_length_multiple_of_8` at the concrete input
`[1, 1]`. -/
theorem unpack_length_multiple_of_8_witness :
    (sprotoUnpack [1, 1]).2 = false ∧ 8 ∣ (apiUnpack [1, 1]).length :=
  ⟨by decide, unpack_length_multiple_of_8 [1, 1] (by decide)⟩

/-! ## Fixed-point integer scaling (claim C8)

The `encode` callback's `SPROTO_TINTEGER` branch applies the decimal
scaling factor before width selection: `v = Math.floor(vn * args.extra + 0.5)`
(src/sproto.ts:1467-1470); the `decode` callback divides the wire integer
by the factor: `value = v / args.extra` (src/sproto.ts:1675-1677).
JavaScript numbers are modelled as rationals; every quantity appearing in
the concrete theorems below is exactly representable in IEEE-754 binary64,
where the JS arithmetic computes exactly these rational values. -/

/-- The wire integer stored for a fixed-point INTEGER field with
`extra = 10^k > 0`: `Math.floor(vn * extra + 0.5)` (src/sproto.ts:1469). -/
def encodeScale (v extra : ℚ) : Int := ⌊v * extra + 1 / 2⌋

/-- The value produced when decoding a fixed-point INTEGER field:
`value / extra` (src/sproto.ts:1677). -/
def decodeScale (n : Int) (extra : ℚ) : ℚ := (n : ℚ) / extra

/-- Modelled from the spec's words ("round half-away-from-zero"), for
comparison with the source's `encodeScale`. -/
def specRoundHalfAwayFromZero (q : ℚ) : Int :=
  if 0 ≤ q then ⌊q + 1 / 2⌋ else -⌊-q + 1 / 2⌋

/-- C8 counterexample: at `v = -5/4`, `k = 1` (`extra = 10`), the source
stores `floor(-12.5 + 0.5) = -12`, while rounding half away from zero
would give `-13`.  (`-5/4`, `10`, `-12.5` and `-12` are all exactly
representable binary64 values, so the JS arithmetic is exact here.) -/
theorem encodeScale_not_half_away_from_zero :
    encodeScale (-5 / 4) 10 = -12 ∧
      specRoundHalfAwayFromZero ((-5 / 4) * 10) = -13 ∧
      encodeScale (-5 / 4) 10 ≠ specRoundHalfAwayFromZero ((-5 / 4) * 10) := by
  refine ⟨?_, ?_, ?_⟩
  · show ⌊(-5 / 4 : ℚ) * 10 + 1 / 2⌋ = -12
    norm_num
  · show specRoundHalfAwayFromZero ((-5 / 4) * 10) = -13
    rw [specRoundHalfAwayFromZero, if_neg (by norm_num)]
    norm_num
  · show ⌊(-5 / 4 : ℚ) * 10 + 1 / 2⌋ ≠ _
    rw [specRoundHalfAwayFromZero, if_neg (by norm_num)]
    norm_num

/-- C8 (amended): for every INTEGER field with scaling factor
`extra = 10^k > 0`, encode stores `floor(v·10^k + 1/2)` — the integer
nearest `v·10^k` with ties rounded toward `+∞`, which coincides with
round-half-away-from-zero for `v ≥ 0` but not at negative ties — and
decode divides the wire integer by `10^k`, recovering `v` to within
`1/(2·10^k)`. -/
theorem encodeScale_characterisation (v extra : ℚ) :
    ((encodeScale v extra : ℚ) - 1 / 2 ≤ v * extra ∧
        v * extra < (encodeScale v extra : ℚ) + 1 / 2) ∧
      (0 ≤ v → 0 ≤ extra → encodeScale v extra = specRoundHalfAwayFromZero (v * extra)) ∧
      (0 < extra → |decodeScale (encodeScale v extra) extra - v| ≤ 1 / (2 * extra)) := by
  have hle : (encodeScale v extra : ℚ) ≤ v * extra + 1 / 2 := Int.floor_le _
  have hlt : v * extra + 1 / 2 < (encodeScale v extra : ℚ) + 1 :=
    Int.lt_floor_add_one _
  refine ⟨⟨by linarith, by linarith⟩, ?_, ?_⟩
  · intro hv he
    rw [specRoundHalfAwayFromZero, if_pos (mul_nonneg hv he)]
    rfl
  · intro hex
    have key : decodeScale (encodeScale v extra) extra - v =
        ((encodeScale v extra : ℚ) - v * extra) / extra := by
      field_simp [decodeScale]
      ring
    rw [key, abs_div, abs_of_pos hex]
    have habs : |(encodeScale v extra : ℚ) - v * extra| ≤ 1 / 2 := by
      rw [abs_le]
      constructor <;> linarith
    calc |(encodeScale v extra : ℚ) - v * extra| / extra
        ≤ (1 / 2) / extra := (div_le_div_iff_of_pos_right hex).mpr habs
      _ = 1 / (2 * extra) := by rw [div_div]

/-- Witness for `encodeScale_characterisation` at `v = 1/4`, `extra = 10`. -/
theorem encodeScale_characterisation_witness :
    encodeScale (1 / 4) 10 = specRoundHalfAwayFromZero ((1 / 4) * 10) ∧
      |decodeScale (encodeScale (1 / 4) 10) 10 - 1 / 4| ≤ 1 / (2 * 10) :=
  ⟨(encodeScale_characterisation (1 / 4) 10).2.1 (by norm_num) (by norm_num),
   (encodeScale_characterisation (1 / 4) 10).2.2 (by norm_num)⟩

/-! ## RPC host session table (claim C3)

The send closure returned by `host.attach` runs
`if (session) { self.session[session] = proto.response ? proto.response : true }`
(src/sproto.ts:1935-1937): for a non-zero session it stores the protocol's
response type, or the literal `true` whenever the response type is absent —
the protocol's `confirm` flag is not consulted (the resolved protocol
record built by `queryProtoFunc`, src/sproto.ts:1767-1791, does not even
carry it).  The response branch of `host.dispatch` runs
`const response = this.session[session]; delete this.session[session]`
(src/sproto.ts:2000-2002).  The table is modelled as an association list
and the two table mutations as steps of a trace. -/

/-- A session-table entry: the protocol's response type (represented by a
type index) or the literal `true` sentinel. -/
inductive SessionVal where
  | respType (t : Nat)
  | sentinel
deriving DecidableEq

/-- The parts of a resolved protocol relevant to the session table.
`confirm` is carried to state the claim but, as in the source, never read
by the send path. -/
structure HostProto where
  response : Option Nat
  confirm : Int
deriving DecidableEq

/-- The host's session table (`this.session`, src/sproto.ts:1918). -/
def SessionTable : Type := List (Nat × SessionVal)

/-- `delete this.session[session]` (src/sproto.ts:2002). -/
def eraseSession (tbl : SessionTable) (s : Nat) : SessionTable :=
  List.filter (fun e => e.1 != s) tbl

/-- `self.session[session] = proto.response ? proto.response : true`,
guarded by `if (session)` (src/sproto.ts:1935-1937). -/
def attachSend (p : HostProto) (session : Nat) (tbl : SessionTable) : SessionTable :=
  if session ≠ 0 then
    (session,
      match p.response with
      | some t => SessionVal.respType t
      | none => SessionVal.sentinel) :: eraseSession tbl session
  else tbl

/-- `delete this.session[session]` on the dispatch response branch
(src/sproto.ts:2002). -/
def dispatchResponse (session : Nat) (tbl : SessionTable) : SessionTable :=
  eraseSession tbl session

/-- The two host operations that touch the session table. -/
inductive HostEvent where
  | send (p : HostProto) (session : Nat)
  | response (session : Nat)
deriving DecidableEq

def hostStep (tbl : SessionTable) : HostEvent → SessionTable
  | .send p s => attachSend p s tbl
  | .response s => dispatchResponse s tbl

/-- The session table after a trace of sends and response dispatches,
starting from the empty table of a fresh host. -/
def runHost (tr : List HostEvent) : SessionTable := List.foldl hostStep [] tr

/-- C3 counterexample: for a protocol with no response type AND
`confirm = 0`, sending with non-zero session 7 still inserts the sentinel
entry — the claim says no entry is inserted in this case, but the source
never consults `confirm` (src/sproto.ts:1936). -/
theorem session_inserted_without_confirm :
    List.lookup 7 (attachSend ⟨none, 0⟩ 7 []) = some SessionVal.sentinel := by
  rfl

theorem lookup_cons_self (t : SessionTable) (s : Nat) (v : SessionVal) :
    List.lookup s ((s, v) :: t) = some v := by
  simp

theorem lookup_cons_ne (t : SessionTable) (s k : Nat) (v : SessionVal) (h : s ≠ k) :
    List.lookup s ((k, v) :: t) = List.lookup s t := by
  simp [List.lookup, show (s == k) = false from by simpa using h]

theorem lookup_eraseSession_self (tbl : SessionTable) (s : Nat) :
    List.lookup s (eraseSession tbl s) = none := by
  induction tbl with
  | nil => rfl
  | cons e t ih =>
    obtain ⟨k, v⟩ := e
    by_cases hk : k = s
    · simpa [eraseSession, List.filter_cons, hk] using ih
    · have hk2 : (k != s) = true := by simpa using hk
      have hsk : s ≠ k := fun hc => hk hc.symm
      simp only [eraseSession, List.filter_cons, hk2, if_true]
      rw [lookup_cons_ne _ _ _ _ hsk]
      exact ih

theorem lookup_eraseSession_ne (tbl : SessionTable) (s t : Nat) (h : s ≠ t) :
    List.lookup s (eraseSession tbl t) = List.lookup s tbl := by
  induction tbl with
  | nil => rfl
  | cons e rest ih =>
    obtain ⟨k, v⟩ := e
    by_cases hk : k = t
    · subst hk
      simp only [eraseSession, List.filter_cons, bne_self_eq_false,
        Bool.false_eq_true, if_false]
      rw [lookup_cons_ne _ _ _ _ h]
      exact ih
    · have hk2 : (k != t) = true := by simpa using hk
      simp only [eraseSession, List.filter_cons, hk2, if_true]
      by_cases hsk : s = k
      · subst hsk
        rw [lookup_cons_self, lookup_cons_self]
      · rw [lookup_cons_ne _ _ _ _ hsk, lookup_cons_ne _ _ _ _ hsk]
        exact ih

theorem lookup_attachSend_ne (tbl : SessionTable) (q : HostProto) (t s : Nat)
    (h : t = 0 ∨ s ≠ t) :
    List.lookup s (attachSend q t tbl) = List.lookup s tbl := by
  rcases h with rfl | hst
  · rw [attachSend, if_neg (by simp)]
  · rw [attachSend]
    by_cases ht0 : t ≠ 0
    · rw [if_pos ht0, lookup_cons_ne _ _ _ _ hst, lookup_eraseSession_ne tbl s t hst]
    · rw [if_neg ht0]

theorem lookup_attachSend_self (tbl : SessionTable) (q : HostProto) (s : Nat)
    (hs : s ≠ 0) : (List.lookup s (attachSend q s tbl)).isSome = true := by
  rw [attachSend, if_pos hs]
  cases q.response
  · rw [lookup_cons_self]
    rfl
  · rw [lookup_cons_self]
    rfl

theorem hostStep_send (tbl : SessionTable) (q : HostProto) (t : Nat) :
    hostStep tbl (HostEvent.send q t) = attachSend q t tbl := rfl

theorem hostStep_response (tbl : SessionTable) (t : Nat) :
    hostStep tbl (HostEvent.response t) = dispatchResponse t tbl := rfl

theorem session_pending_general :
    ∀ (tr : List HostEvent) (tbl : SessionTable) (s : Nat),
    (List.lookup s (List.foldl hostStep tbl tr)).isSome = true ↔
      ((∃ p pre post, tr = pre ++ HostEvent.send p s :: post ∧ s ≠ 0 ∧
          ∀ e ∈ post, e ≠ HostEvent.response s) ∨
        ((List.lookup s tbl).isSome = true ∧ ∀ e ∈ tr, e ≠ HostEvent.response s)) := by
  intro tr
  induction tr with
  | nil =>
    intro tbl s
    simp only [List.foldl_nil]
    constructor
    · intro h
      exact Or.inr ⟨h, by intro e he; cases he⟩
    · intro h
      rcases h with ⟨p, pre, post, heq, _, _⟩ | ⟨h, _⟩
      · exact absurd heq (by simp)
      · exact h
  | cons e tr ih =>
    intro tbl s
    simp only [List.foldl_cons]
    rw [ih]
    constructor
    · intro h
      rcases h with ⟨p, pre, post, heq, hs, hpost⟩ | ⟨hsome, hnor⟩
      · exact Or.inl ⟨p, e :: pre, post, by rw [heq, List.cons_append], hs, hpost⟩
      · cases e with
        | send q t =>
          by_cases hts : t = s ∧ s ≠ 0
          · refine Or.inl ⟨q, [], tr, ?_, hts.2, hnor⟩
            rw [hts.1, List.nil_append]
          · refine Or.inr ⟨?_, ?_⟩
            · have hcase : t = 0 ∨ s ≠ t := by
                by_cases ht0 : t = 0
                · exact Or.inl ht0
                · refine Or.inr fun hc => hts ⟨hc.symm, ?_⟩
                  rw [hc]
                  exact ht0
              have hunch := lookup_attachSend_ne tbl q t s hcase
              rw [hostStep_send, hunch] at hsome
              exact hsome
            · intro x hx
              rcases List.mem_cons.mp hx with rfl | hx2
              · simp
              · exact hnor x hx2
        | response t =>
          by_cases hts : t = s
          · subst hts
            exfalso
            have hnone : List.lookup t (dispatchResponse t tbl) = none :=
              lookup_eraseSession_self tbl t
            rw [hostStep_response, hnone] at hsome
            cases hsome
          · refine Or.inr ⟨?_, ?_⟩
            · have hunch : List.lookup s (dispatchResponse t tbl) = List.lookup s tbl :=
                lookup_eraseSession_ne tbl s t fun hc => hts hc.symm
              rw [hostStep_response, hunch] at hsome
              exact hsome
            · intro x hx
              rcases List.mem_cons.mp hx with rfl | hx2
              · simp [hts]
              · exact hnor x hx2
    · intro h
      rcases h with ⟨p, pre, post, heq, hs, hpost⟩ | ⟨hsome, hnor⟩
      · cases pre with
        | nil =>
          rw [List.nil_append] at heq
          rw [List.cons_eq_cons] at heq
          obtain ⟨he, htr⟩ := heq
          refine Or.inr ⟨?_, ?_⟩
          · rw [he, hostStep_send]
            exact lookup_attachSend_self tbl p s hs
          · rw [htr]
            exact hpost
        | cons e0 pre2 =>
          rw [List.cons_append, List.cons_eq_cons] at heq
          obtain ⟨he, htr⟩ := heq
          exact Or.inl ⟨p, pre2, post, htr, hs, hpost⟩
      · have hner : e ≠ HostEvent.response s := hnor e (by simp)
        have hnor2 : ∀ x ∈ tr, x ≠ HostEvent.response s :=
          fun x hx => hnor x (by simp [hx])
        refine Or.inr ⟨?_, hnor2⟩
        cases e with
        | send q t =>
          rw [hostStep_send]
          by_cases hts : t = s ∧ s ≠ 0
          · rw [hts.1]
            exact lookup_attachSend_self tbl q s hts.2
          · have hcase : t = 0 ∨ s ≠ t := by
              by_cases ht0 : t = 0
              · exact Or.inl ht0
              · refine Or.inr fun hc => hts ⟨hc.symm, ?_⟩
                rw [hc]
                exact ht0
            rw [lookup_attachSend_ne tbl q t s hcase]
            exact hsome
        | response t =>
          have hts : t ≠ s := by
            intro hc
            exact hner (by rw [hc])
          rw [hostStep_response]
          show (List.lookup s (eraseSession tbl t)).isSome = true
          rw [lookup_eraseSession_ne tbl s t fun hc => hts hc.symm]
          exact hsome

/-- C3 (amended): sending through an attach-returned function with a
non-zero session id inserts a session-table entry mapping the session to
the protocol's response type, or to the `true` sentinel whenever the
protocol has no response type — REGARDLESS of `confirm` (the source never
reads it on the send path); a session-id-0 send inserts nothing;
dispatching a response removes the entry for its session.  Consequently
the table holds an entry for `s` iff some send with non-zero session `s`
has happened and no response for `s` has been dispatched since. -/
theorem session_table_pending_iff (tr : List HostEvent) (s : Nat) :
    (List.lookup s (runHost tr)).isSome = true ↔
      ∃ p pre post, tr = pre ++ HostEvent.send p s :: post ∧ s ≠ 0 ∧
        ∀ e ∈ post, e ≠ HostEvent.response s := by
  rw [runHost, session_pending_general tr [] s]
  constructor
  · intro h
    rcases h with h | ⟨hsome, _⟩
    · exact h
    · cases hsome
  · exact Or.inl

/-! ## Integer bodies and the integer-array encoder (claim C4)

Byte-level helpers mirror `fillSize` (src/sproto.ts:696-702),
`encodeInteger` (704-710) and `encodeUint64` (712-722): little-endian
bytes obtained as `shift-right k bits & 0xff`, written here as division by
the decimal value of `2^(8k)`.  The `encode` callback selects the width
with `vh = Math.floor(v / 2^31)`; a 4-byte body iff `vh` is 0 or −1, in
which case the stored value is `v >>> 0` (src/sproto.ts:1473-1480). -/

/-- 2-byte little-endian encoding (used for header counts and field
slots, `value & 0xff`, `(value >> 8) & 0xff`). -/
def u16le (n : Nat) : List Nat := [n % 256, n / 256 % 256]

/-- 4-byte little-endian encoding. -/
def u32le (n : Nat) : List Nat :=
  [n % 256, n / 256 % 256, n / 65536 % 256, n / 16777216 % 256]

/-- 8-byte little-endian encoding. -/
def u64le (n : Nat) : List Nat :=
  [n % 256, n / 256 % 256, n / 65536 % 256, n / 16777216 % 256,
   n / 4294967296 % 256, n / 1099511627776 % 256,
   n / 281474976710656 % 256, n / 72057594037927936 % 256]

/-- `v >>> 0`: the unsigned 32-bit reduction of an integer value
(src/sproto.ts:1475). -/
def toUint32 (v : Int) : Nat := (v % (4294967296 : Int)).toNat

/-- The unsigned 64-bit reduction: the 8 little-endian two's-complement
bytes written by `encodeUint64` are the bytes of this value. -/
def toUint64 (v : Int) : Nat := (v % (18446744073709551616 : Int)).toNat

/-- The 4 bytes written for a 4-byte integer element. -/
def int32chunk (v : Int) : List Nat := u32le (toUint32 v)

/-- The 8 bytes written for an 8-byte integer element. -/
def int64bytes (v : Int) : List Nat := u64le (toUint64 v)

/-- `uint32ToUint64` (src/sproto.ts:841-853): the 4 high bytes appended
when a 4-byte element is widened to 8 bytes — `0xFF`s when the sign bit
was set, zeros otherwise. -/
def uint32ToUint64 (negative : Bool) : List Nat :=
  if negative then [255, 255, 255, 255] else [0, 0, 0, 0]

/-- The width test of the `encode` callback (src/sproto.ts:1473-1480):
`vh = Math.floor(v / 2^31)` (`uint64Rshift`, floor division); the element
takes 4 bytes iff `vh` is 0 or −1. -/
def fits32 (v : Int) : Bool :=
  Int.fdiv v 2147483648 == 0 || Int.fdiv v 2147483648 == -1

/-- `encodeIntegerArray` (src/sproto.ts:855-931), producing the body bytes
that follow the length prefix.  `chunks` holds the per-element byte groups
already written; `intlen` is the current element width.  A 4-byte element
written while `intlen = 8` is widened immediately with `uint32ToUint64`
(src/sproto.ts:890-892); the first 8-byte element widens all previous
4-byte chunks in place, sign-extending on byte 3's high bit
(src/sproto.ts:898-909).  An empty array produces no bytes at all — in
particular no width byte (src/sproto.ts:926-928); otherwise the width is
written first (line 929). -/
def encIntArrGo : List Int → Nat → List (List Nat) → List Nat
  | [], intlen, chunks => if chunks.isEmpty then [] else intlen :: chunks.flatten
  | v :: rest, intlen, chunks =>
    if fits32 v then
      if intlen == 4 then encIntArrGo rest 4 (chunks ++ [int32chunk v])
      else
        encIntArrGo rest 8
          (chunks ++ [int32chunk v ++ uint32ToUint64 (decide (2147483648 ≤ toUint32 v))])
    else
      if intlen == 4 then
        encIntArrGo rest 8
          ((chunks.map fun c => c ++ uint32ToUint64 (decide (128 ≤ c.getD 3 0))) ++
            [int64bytes v])
      else encIntArrGo rest 8 (chunks ++ [int64bytes v])

def encodeIntegerArray (vs : List Int) : List Nat := encIntArrGo vs 4 []

/-- The full data-area entry for an integer-array field: `len:u32` prefix
(`fillSize`, written by `encodeArray`, src/sproto.ts:999-1000) followed by
the body. -/
def encodeArrayIntegerData (vs : List Int) : List Nat :=
  u32le (encodeIntegerArray vs).length ++ encodeIntegerArray vs

theorem toUint32_lt (v : Int) : toUint32 v < 4294967296 := by
  unfold toUint32
  omega

theorem fits32_iff (v : Int) :
    fits32 v = true ↔ -2147483648 ≤ v ∧ v < 2147483648 := by
  have h1 : Int.fdiv v 2147483648 = v / 2147483648 :=
    Int.fdiv_eq_ediv v (by norm_num)
  rw [fits32, Bool.or_eq_true, beq_iff_eq, beq_iff_eq, h1]
  omega

theorem int32chunk_extend (v : Int) (h : fits32 v = true) :
    int32chunk v ++ uint32ToUint64 (decide (2147483648 ≤ toUint32 v)) =
      int64bytes v := by
  rw [fits32_iff] at h
  have hcase : (0 ≤ v ∧ toUint64 v = toUint32 v ∧ toUint32 v < 2147483648) ∨
      (v < 0 ∧ toUint64 v = toUint32 v + 18446744069414584320 ∧
        2147483648 ≤ toUint32 v ∧ toUint32 v < 4294967296) := by
    unfold toUint64 toUint32
    omega
  rcases hcase with ⟨_, he, hlt⟩ | ⟨_, he, hge, hlt⟩
  · have hd : decide (2147483648 ≤ toUint32 v) = false := by
      simp only [decide_eq_false_iff_not]
      omega
    rw [hd]
    show u32le (toUint32 v) ++ [0, 0, 0, 0] = u64le (toUint64 v)
    rw [he]
    simp only [u32le, u64le, List.cons_append, List.nil_append, List.cons.injEq,
      and_true, true_and]
    omega
  · have hd : decide (2147483648 ≤ toUint32 v) = true := by
      simp only [decide_eq_true_eq]
      omega
    rw [hd]
    show u32le (toUint32 v) ++ [255, 255, 255, 255] = u64le (toUint64 v)
    rw [he]
    simp only [u32le, u64le, List.cons_append, List.nil_append, List.cons.injEq,
      and_true, true_and]
    omega

theorem promote_chunk (v : Int) (h : fits32 v = true) :
    int32chunk v ++ uint32ToUint64 (decide (128 ≤ (int32chunk v).getD 3 0)) =
      int64bytes v := by
  have heq : decide (128 ≤ (int32chunk v).getD 3 0) =
      decide (2147483648 ≤ toUint32 v) := by
    have hlt := toUint32_lt v
    have hg : (int32chunk v).getD 3 0 = toUint32 v / 16777216 % 256 := rfl
    rw [hg, decide_eq_decide]
    omega
  rw [heq]
  exact int32chunk_extend v h

theorem encIntArrGo_8 : ∀ (vs pref : List Int), (pref.map int64bytes ≠ []) →
    encIntArrGo vs 8 (pref.map int64bytes) =
      8 :: ((pref ++ vs).map int64bytes).flatten := by
  intro vs
  induction vs with
  | nil =>
    intro pref hne
    simp only [encIntArrGo, List.append_nil]
    rw [if_neg (by simpa [List.isEmpty_iff] using hne)]
  | cons v rest ih =>
    intro pref hne
    by_cases hf : fits32 v = true
    · simp only [encIntArrGo, hf, if_true]
      rw [if_neg (by simp)]
      rw [show (pref.map int64bytes) ++
          [int32chunk v ++ uint32ToUint64 (decide (2147483648 ≤ toUint32 v))] =
          (pref ++ [v]).map int64bytes by
        rw [List.map_append, List.map_singleton, int32chunk_extend v hf]]
      rw [ih (pref ++ [v]) (by simp)]
      simp
    · simp only [encIntArrGo, hf, Bool.false_eq_true, if_false]
      rw [if_neg (by simp)]
      rw [show (pref.map int64bytes) ++ [int64bytes v] =
          (pref ++ [v]).map int64bytes by
        rw [List.map_append, List.map_singleton]]
      rw [ih (pref ++ [v]) (by simp)]
      simp

theorem encIntArrGo_4 : ∀ (vs pref : List Int), (∀ v ∈ pref, fits32 v = true) →
    encIntArrGo vs 4 (pref.map int32chunk) =
      if pref.isEmpty ∧ vs.isEmpty then []
      else if vs.all fits32 then 4 :: ((pref ++ vs).map int32chunk).flatten
      else 8 :: ((pref ++ vs).map int64bytes).flatten := by
  intro vs
  induction vs with
  | nil =>
    intro pref hpref
    simp only [encIntArrGo, List.append_nil, List.all_nil, List.isEmpty_nil, and_true,
      if_true]
    cases pref with
    | nil => simp
    | cons p ps =>
      rw [if_neg (by simp), if_neg (by simp)]
  | cons v rest ih =>
    intro pref hpref
    by_cases hf : fits32 v = true
    · simp only [encIntArrGo, hf, if_true]
      rw [if_pos (by rfl)]
      rw [show (pref.map int32chunk) ++ [int32chunk v] =
          (pref ++ [v]).map int32chunk by
        rw [List.map_append, List.map_singleton]]
      rw [ih (pref ++ [v]) (by
        intro x hx
        rcases List.mem_append.mp hx with hx | hx
        · exact hpref x hx
        · simp only [List.mem_singleton] at hx
          rw [hx]
          exact hf)]
      rw [if_neg (by simp)]
      conv_rhs => rw [if_neg (by simp)]
      simp only [List.all_cons, hf, Bool.true_and, List.append_assoc,
        List.singleton_append]
    · simp only [encIntArrGo, hf, Bool.false_eq_true, if_false]
      rw [if_pos (by rfl)]
      rw [show ((pref.map int32chunk).map
            fun c => c ++ uint32ToUint64 (decide (128 ≤ c.getD 3 0))) ++
            [int64bytes v] = (pref ++ [v]).map int64bytes by
        rw [List.map_map, List.map_append, List.map_singleton]
        congr 1
        exact List.map_congr_left fun x hx =>
          promote_chunk x (hpref x hx)]
      rw [encIntArrGo_8 rest (pref ++ [v]) (by simp)]
      conv_rhs => rw [if_neg (by simp)]
      conv_rhs => rw [if_neg (by
        simp only [List.all_cons, hf, Bool.false_and, Bool.false_eq_true]
        exact not_false)]
      simp

/-- C4: for every integer-array field the encoded body begins with a
single width byte, 4 or 8; all elements are written at that shared width
(when any element needs 8 bytes, every element — including those written
before the promotion point — ends up as its sign-extended 8-byte
two's-complement encoding); an element takes 4 bytes exactly when its
value lies in [−2^31, 2^31); and an empty array is encoded as length
prefix 0 with no width byte. -/
theorem integer_array_body_characterisation (vs : List Int) :
    (encodeIntegerArray vs =
      if vs.isEmpty then []
      else if vs.all fits32 then 4 :: (vs.map int32chunk).flatten
      else 8 :: (vs.map int64bytes).flatten) ∧
    encodeArrayIntegerData ([] : List Int) = [0, 0, 0, 0] ∧
    (∀ v : Int, fits32 v = true ↔ -2147483648 ≤ v ∧ v < 2147483648) := by
  refine ⟨?_, rfl, fits32_iff⟩
  have h := encIntArrGo_4 vs [] (by intro x hx; cases hx)
  simp only [List.map_nil, List.nil_append, List.isEmpty_nil, true_and] at h
  exact h

/-! ## Schema data model and the record codec (claims C2, C5, C7)

`SprotoField` / `SprotoType` mirror the parsed schema records
(src/sproto.ts:67-82); `findTag` mirrors src/sproto.ts:669-694.  The
`encode`/`decode` callbacks (src/sproto.ts:1424-1532, 1655-1753) are the
only callbacks ever passed to `sprotoEncode`/`sprotoDecode` by the public
entry points, so callback and traversal are fused here: values are the
tagged variant `SValue`, records are association lists keyed by field
name.  JS strings and binary strings are both carried as their byte
sequences; a double value is carried as its 8 wire bytes (the hand-rolled
decimal conversion `doubleToBinary`, src/sproto.ts:798-819, and double
arrays, which the source writes uninitialised, are outside every claim and
not modelled).  Struct recursion is by structural fuel: the public entry
points start encode at fuel 65 = `ENCODE_DEEPLEVEL + 1` (the encode
callback aborts at `deep >= 64` before fuel could run out) and decode at
fuel `length + 1` (every nested body is strictly shorter). -/

def SPROTO_TINTEGER : Nat := 0
def SPROTO_TBOOLEAN : Nat := 1
def SPROTO_TSTRING : Nat := 2
def SPROTO_TDOUBLE : Nat := 3
def SPROTO_TSTRUCT : Nat := 4
def SPROTO_TARRAY : Nat := 128
def ENCODE_DEEPLEVEL : Nat := 64

structure SprotoField where
  tag : Nat
  type : Nat
  name : String
  st : Option Nat
  key : Int
  extra : Nat
deriving DecidableEq

structure SprotoType where
  name : String
  n : Nat
  base : Int
  maxn : Nat
  f : List SprotoField
deriving DecidableEq

/-- Result of `findTag`: a field, JS `null`, or JS `undefined` (the
out-of-range array access `st.f[tag]`). -/
inductive FindTagResult where
  | fld (f : SprotoField)
  | nullRes
  | undef
deriving DecidableEq

/-- The binary-search branch of `findTag` (src/sproto.ts:678-693); fuel
bounds the loop (the interval shrinks each turn). -/
def findTagBSGo : Nat → List SprotoField → Int → Nat → Nat → Option SprotoField
  | 0, _, _, _, _ => none
  | fuel + 1, f, tag, b, e =>
    if b < e then
      let mid := (b + e) / 2
      match f.get? mid with
      | none => none
      | some fl =>
        if (fl.tag : Int) == tag then some fl
        else if tag > (fl.tag : Int) then findTagBSGo fuel f tag (mid + 1) e
        else findTagBSGo fuel f tag b mid
    else none

/-- `findTag` (src/sproto.ts:669-694).  In the direct-index branch the
bound check is `tag < 0 || tag > st.n` — `tag = st.n` passes the check and
reads `st.f[st.n]`, one past the end, which in JS yields `undefined` (and
is distinct from the `null` the caller tests for). -/
def findTag (st : SprotoType) (tag : Int) : FindTagResult :=
  if 0 ≤ st.base then
    let t : Int := tag - st.base
    if t < 0 ∨ t > (st.n : Int) then .nullRes
    else
      match st.f.get? t.toNat with
      | some fl => .fld fl
      | none => .undef
  else
    match findTagBSGo (st.n + 1) st.f tag 0 st.n with
    | some fl => .fld fl
    | none => .nullRes

/-- The value variant handled by the fused codec callbacks. -/
inductive SValue where
  | vint (v : Int)
  | vrat (q : ℚ)
  | vbool (b : Bool)
  | vnull
  | vstr (bytes : List Nat)
  | vdouble (bytes : List Nat)
  | vstruct (fields : List (String × SValue))
  | varr (elems : List SValue)

/-- A decoded or to-be-encoded record (`ud.result` / `ud.indata`). -/
def SRecord : Type := List (String × SValue)

def lookupField : SRecord → String → Option SValue
  | [], _ => none
  | (k, v) :: t, s => if k == s then some v else lookupField t s

def setField : SRecord → String → SValue → SRecord
  | [], k, v => [(k, v)]
  | (k2, v2) :: t, k, v => if k2 == k then (k, v) :: t else (k2, v2) :: setField t k v

/-- `utils.toWord` (src/sproto.ts:176); missing bytes read as JS
`undefined & 0xff = 0`. -/
def toWord (l : List Nat) : Nat := l.getD 0 0 % 256 + 256 * (l.getD 1 0 % 256)

/-- `utils.toDword` (src/sproto.ts:178-183). -/
def toDword (l : List Nat) : Nat :=
  l.getD 0 0 % 256 + 256 * (l.getD 1 0 % 256) + 65536 * (l.getD 2 0 % 256) +
    16777216 * (l.getD 3 0 % 256)

/-- `utils.expand64` (src/sproto.ts:162-168): a 32-bit unsigned value
reinterpreted as signed (`value & 0xFFFFFFFF` is a signed 32-bit `&` in
JS). -/
def expand64 (u : Nat) : Int :=
  if u < 2147483648 then (u : Int) else (u : Int) - 4294967296

/-- `utils.hiLowUint64` (src/sproto.ts:170): `(hi & 0xFFFFFFFF)` is signed,
so the 64-bit value is the signed combination. -/
def hiLowUint64 (low hi : Nat) : Int := expand64 hi * 4294967296 + low

/-- `extra`-scaling of an integral encode value: the source computes
`Math.floor(vn * extra + 0.5)` (src/sproto.ts:1467-1470), which for an
integral `vn` is exactly `vn * extra`; fractional inputs are covered by
`encodeScale`. -/
def scaleInt (extra : Nat) (v : Int) : Int := if 0 < extra then v * extra else v

/-- `extra`-handling of a decoded integer (`if (args.extra) value = v /
args.extra`, src/sproto.ts:1675-1680); the JS division is a float (here
rational) division. -/
def applyExtra (extra : Nat) (v : Int) : SValue :=
  if extra != 0 then .vrat ((v : ℚ) / (extra : ℚ)) else .vint v

/-- Boolean decode (src/sproto.ts:1688-1698): 1 → true, 0 → false,
anything else → JS `null`. -/
def boolOf (v : Nat) : SValue :=
  if v == 1 then .vbool true else if v == 0 then .vbool false else .vnull

def allInts : List SValue → Option (List Int)
  | [] => some []
  | .vint v :: rest => (allInts rest).map fun vs => v :: vs
  | _ :: _ => none

def allBools : List SValue → Option (List Bool)
  | [] => some []
  | .vbool b :: rest => (allBools rest).map fun bs => b :: bs
  | _ :: _ => none

def allStrs : List SValue → Option (List (List Nat))
  | [] => some []
  | .vstr bs :: rest => (allStrs rest).map fun l => bs :: l
  | _ :: _ => none

def allStructs : List SValue → Option (List SRecord)
  | [] => some []
  | .vstruct d :: rest => (allStructs rest).map fun l => d :: l
  | _ :: _ => none

/-- A header slot produced for one present field: a non-zero inline value
or the literal 0 with a data-area entry. -/
inductive Slot where
  | inline (v : Nat)
  | data (bytes : List Nat)

/-- Encode the elements of a struct array (`encodeArray`'s default branch,
src/sproto.ts:974-996): each element is a length-prefixed nested record. -/
def encodeStructElems (recurse : SprotoType → SRecord → Nat → Option (List Nat))
    (subty : SprotoType) (deep : Nat) : List SRecord → Option (List Nat)
  | [] => some []
  | d :: rest =>
    match recurse subty d (deep + 1) with
    | none => none
    | some bytes =>
      match encodeStructElems recurse subty deep rest with
      | none => none
      | some more => some (u32le bytes.length ++ bytes ++ more)

/-- The array body for one field (`encodeArray`, src/sproto.ts:933-1001),
without the length prefix.  Elements of the wrong shape (where JS `typeof`
checks would silently truncate the array) are modelled as errors. -/
def encodeArrayBody (types : List SprotoType)
    (recurse : SprotoType → SRecord → Nat → Option (List Nat))
    (fl : SprotoField) (ty : Nat) (elems : List SValue) (deep : Nat) :
    Option (List Nat) :=
  if ty == SPROTO_TINTEGER then
    match allInts elems with
    | some vs => some (encodeIntegerArray (vs.map (scaleInt fl.extra)))
    | none => none
  else if ty == SPROTO_TBOOLEAN then
    match allBools elems with
    | some bs => some (bs.map fun b => if b then 1 else 0)
    | none => none
  else if ty == SPROTO_TSTRING then
    match allStrs elems with
    | some ss => some ((ss.map fun bs => u32le bs.length ++ bs).flatten)
    | none => none
  else if ty == SPROTO_TSTRUCT then
    match fl.st with
    | none => none
    | some i =>
      match types.get? i with
      | none => none
      | some subty =>
        match allStructs elems with
        | some ds => encodeStructElems recurse subty deep ds
        | none => none
  else none

/-- Encode one present field (the `encode` callback's type dispatch,
src/sproto.ts:1463-1531, with `sprotoEncode`'s inline/data decision,
src/sproto.ts:1358-1373). -/
def encodeOne (types : List SprotoType)
    (recurse : SprotoType → SRecord → Nat → Option (List Nat))
    (fl : SprotoField) (v : SValue) (deep : Nat) : Option Slot :=
  if (fl.type &&& SPROTO_TARRAY) != 0 then
    match v with
    | .varr elems =>
      match encodeArrayBody types recurse fl (fl.type &&& 127) elems deep with
      | some body => some (.data (u32le body.length ++ body))
      | none => none
    | _ => none
  else if fl.type == SPROTO_TINTEGER then
    match v with
    | .vint n =>
      let vv := scaleInt fl.extra n
      if fits32 vv then
        let u := toUint32 vv
        if u < 32767 then some (.inline ((u + 1) * 2))
        else some (.data (u32le 4 ++ u32le u))
      else some (.data (u32le 8 ++ u64le (toUint64 vv)))
    | _ => none
  else if fl.type == SPROTO_TBOOLEAN then
    match v with
    | .vbool b => some (.inline (if b then 4 else 2))
    | _ => none
  else if fl.type == SPROTO_TDOUBLE then
    match v with
    | .vdouble bs => if bs.length == 8 then some (.data (u32le 8 ++ bs)) else none
    | _ => none
  else if fl.type == SPROTO_TSTRING then
    match v with
    | .vstr bs => some (.data (u32le bs.length ++ bs))
    | _ => none
  else if fl.type == SPROTO_TSTRUCT then
    match fl.st, v with
    | some i, .vstruct sub =>
      match types.get? i with
      | some subty =>
        match recurse subty sub (deep + 1) with
        | some bytes => some (.data (u32le bytes.length ++ bytes))
        | none => none
      | none => none
    | _, _ => none
  else none

/-- The field walk of `sprotoEncode` (src/sproto.ts:1321-1406): fields in
schema order, `lasttag` tracking, tag-gap markers `(gap-1)*2+1` failing
above 16 bits (lines 1391-1395).  The `encode` callback checks
`deep >= ENCODE_DEEPLEVEL` on entry (lines 1430-1434), before the
absent-field test, so any field at an over-deep level is an error.
Returns the header entries and the data area. -/
def encodeFieldsAux (types : List SprotoType)
    (recurse : SprotoType → SRecord → Nat → Option (List Nat))
    (d : SRecord) (deep : Nat) :
    List SprotoField → Int → Option (List Nat × List Nat)
  | [], _ => some ([], [])
  | fl :: rest, lasttag =>
    if ENCODE_DEEPLEVEL ≤ deep then none
    else
      match lookupField d fl.name with
      | none => encodeFieldsAux types recurse d deep rest lasttag
      | some v =>
        match encodeOne types recurse fl v deep with
        | none => none
        | some slot =>
          let gap : Int := (fl.tag : Int) - lasttag - 1
          let marker : Option (Option Nat) :=
            if 0 < gap then
              if 65535 < (gap - 1) * 2 + 1 then none
              else some (some ((gap - 1) * 2 + 1).toNat)
            else some none
          match marker with
          | none => none
          | some mk =>
            match encodeFieldsAux types recurse d deep rest (fl.tag : Int) with
            | none => none
            | some (entries, data) =>
              let slotv := match slot with | .inline v => v | .data _ => 0
              let newdata := match slot with | .inline _ => [] | .data bs => bs
              some ((match mk with | some m => [m] | none => []) ++ slotv :: entries,
                newdata ++ data)

/-- `sprotoEncode` (src/sproto.ts:1310-1422) by fuel: the final buffer is
`count:u16` then the emitted header entries then the data area (the
source's trailing-slot splice produces exactly this layout). -/
def encodeStructGo (types : List SprotoType) :
    Nat → SprotoType → SRecord → Nat → Option (List Nat)
  | 0, _, _, _ => none
  | fuel + 1, st, d, deep =>
    match encodeFieldsAux types (encodeStructGo types fuel) d deep st.f (-1) with
    | none => none
    | some (entries, data) =>
      some (u16le entries.length ++ (entries.map u16le).flatten ++ data)

/-- `sp.encode` (src/sproto.ts:1831-1861): encode at depth 0.  Fuel 65
matches `ENCODE_DEEPLEVEL + 1`: the callback's depth check fires strictly
before fuel can run out. -/
def sprotoEncode (types : List SprotoType) (st : SprotoType) (d : SRecord) :
    Option (List Nat) :=
  encodeStructGo types (ENCODE_DEEPLEVEL + 1) st d 0

/-- An error the decoder surfaces to the caller: `fail` where the source
returns `-1` (and `sp.decode` returns `null`), `crash` where the source
throws a `TypeError` (reading a property of the `undefined` produced by an
out-of-range `st.f[tag]`). -/
inductive DecodeError where
  | fail
  | crash
deriving DecidableEq

/-- 4-byte integer-array elements (`decodeArray`'s `len === 4` loop,
src/sproto.ts:1049-1059). -/
def decodeIntElems4 : Nat → List Nat → List Int
  | 0, _ => []
  | n + 1, s => expand64 (toDword s) :: decodeIntElems4 n (s.drop 4)

/-- 8-byte integer-array elements (src/sproto.ts:1060-1073). -/
def decodeIntElems8 : Nat → List Nat → List Int
  | 0, _ => []
  | n + 1, s => hiLowUint64 (toDword s) (toDword (s.drop 4)) :: decodeIntElems8 n (s.drop 8)

/-- `decodeArrayObject` (src/sproto.ts:1003-1030): walk the
length-prefixed children of a string/struct array body; `elemDec` decodes
one child from its bytes.  Fuel bounds the loop (each turn consumes at
least the 4-byte prefix). -/
def decodeObjArrayGo (elemDec : List Nat → Except DecodeError SValue) :
    Nat → Nat → List Nat → Except DecodeError (List SValue)
  | 0, _, _ => .error .fail
  | _ + 1, 0, _ => .ok []
  | fuel + 1, sz, s =>
    if sz < 4 then .error .fail
    else
      let hsz := toDword s
      if hsz > sz - 4 then .error .fail
      else
        match elemDec ((s.drop 4).take hsz) with
        | .error e => .error e
        | .ok v =>
          match decodeObjArrayGo elemDec fuel (sz - 4 - hsz) (s.drop (4 + hsz)) with
          | .error e => .error e
          | .ok vs => .ok (v :: vs)

/-- `decodeArray` (src/sproto.ts:1032-1094), fused with the `decode`
callback's per-element handling.  `currentdata` still carries the `len:u32`
prefix (the source passes the un-advanced stream, src/sproto.ts:1591). -/
def decodeArrayM (types : List SprotoType)
    (recurse : SprotoType → List Nat → Nat → Except DecodeError (SRecord × Nat))
    (fl : SprotoField) (ty : Nat) (currentdata : List Nat) (deep : Nat) :
    Except DecodeError SValue :=
  let sz := toDword currentdata
  if sz == 0 then .ok (.varr [])
  else
    let stream := currentdata.drop 4
    if ty == SPROTO_TINTEGER then
      let len := stream.getD 0 0
      let s2 := stream.drop 1
      if len == 4 then
        if (sz - 1) % 4 != 0 then .error .fail
        else .ok (.varr ((decodeIntElems4 ((sz - 1) / 4) s2).map (applyExtra fl.extra)))
      else if len == 8 then
        if (sz - 1) % 8 != 0 then .error .fail
        else .ok (.varr ((decodeIntElems8 ((sz - 1) / 8) s2).map (applyExtra fl.extra)))
      else .error .fail
    else if ty == SPROTO_TBOOLEAN then
      .ok (.varr ((List.range sz).map fun i => boolOf (stream.getD i 0)))
    else if ty == SPROTO_TSTRING then
      (decodeObjArrayGo (fun bs => .ok (.vstr bs)) (sz + 1) sz stream).map .varr
    else if ty == SPROTO_TSTRUCT then
      match fl.st with
      | none => .error .crash
      | some i =>
        match types.get? i with
        | none => .error .crash
        | some subty =>
          (decodeObjArrayGo
            (fun bs =>
              match recurse subty bs (deep + 1) with
              | .error e => .error e
              | .ok (rec2, consumed) =>
                if consumed == bs.length then .ok (.vstruct rec2) else .error .fail)
            (sz + 1) sz stream).map .varr
    else .error .fail

/-- Decode one data-area field (`sprotoDecode`'s `value < 0` dispatch,
src/sproto.ts:1589-1643, fused with the `decode` callback).  For a nested
struct the consumed count must equal the declared length
(src/sproto.ts:1723-1737); a STRUCT field without a subtype would make the
source dereference `null` (impossible for a parsed schema) and is a
crash. -/
def decodeDataField (types : List SprotoType)
    (recurse : SprotoType → List Nat → Nat → Except DecodeError (SRecord × Nat))
    (fl : SprotoField) (currentdata : List Nat) (deep : Nat) :
    Except DecodeError SValue :=
  if (fl.type &&& SPROTO_TARRAY) != 0 then
    decodeArrayM types recurse fl (fl.type &&& 127) currentdata deep
  else
    let sz := toDword currentdata
    if fl.type == SPROTO_TDOUBLE then
      if sz == 8 then .ok (.vdouble ((currentdata.drop 4).take 8)) else .error .fail
    else if fl.type == SPROTO_TINTEGER then
      if sz == 4 then .ok (applyExtra fl.extra (expand64 (toDword (currentdata.drop 4))))
      else if sz == 8 then
        .ok (applyExtra fl.extra
          (hiLowUint64 (toDword (currentdata.drop 4)) (toDword (currentdata.drop 8))))
      else .error .fail
    else if fl.type == SPROTO_TSTRING then
      .ok (.vstr ((currentdata.drop 4).take sz))
    else if fl.type == SPROTO_TSTRUCT then
      match fl.st with
      | none => .error .crash
      | some i =>
        match types.get? i with
        | none => .error .crash
        | some subty =>
          match recurse subty ((currentdata.drop 4).take sz) (deep + 1) with
          | .error e => .error e
          | .ok (rec2, consumed) =>
            if consumed == sz then .ok (.vstruct rec2) else .error .fail
    else .error .fail

/-- The header-entry walk of `sprotoDecode` (src/sproto.ts:1549-1651):
`tag` starts at −1 and is incremented per entry; odd entries are tag-gaps;
`value = entry/2 − 1 < 0` (entry 0) means a data-area body, consumed
BEFORE the field is resolved (lines 1560-1572), so unknown tags still
consume their data; `findTag` then yields a field, `null` (skip) or
`undefined` (the caller dereferences it and throws, line 1577).  Inline
values are only legal for INTEGER/BOOLEAN (lines 1644-1650).  Returns the
accumulated record and the remaining (unconsumed) size. -/
def decodeEntriesAux (types : List SprotoType)
    (recurse : SprotoType → List Nat → Nat → Except DecodeError (SRecord × Nat))
    (st : SprotoType) (deep : Nat) :
    List Nat → List Nat → Nat → Int → SRecord → Except DecodeError (SRecord × Nat)
  | [], _, size, _, acc => .ok (acc, size)
  | e :: rest, ds, size, tag, acc =>
    let tag2 := tag + 1
    if e % 2 == 1 then
      decodeEntriesAux types recurse st deep rest ds size (tag2 + (e / 2 : Nat)) acc
    else if e == 0 then
      if size < 4 then .error .fail
      else
        let sz := toDword ds
        if size < sz + 4 then .error .fail
        else
          let currentdata := ds
          let ds2 := ds.drop (sz + 4)
          let size2 := size - (sz + 4)
          match findTag st tag2 with
          | .nullRes => decodeEntriesAux types recurse st deep rest ds2 size2 tag2 acc
          | .undef => .error .crash
          | .fld fl =>
            match decodeDataField types recurse fl currentdata deep with
            | .error err => .error err
            | .ok v =>
              decodeEntriesAux types recurse st deep rest ds2 size2 tag2
                (setField acc fl.name v)
    else
      let value : Nat := e / 2 - 1
      match findTag st tag2 with
      | .nullRes => decodeEntriesAux types recurse st deep rest ds size tag2 acc
      | .undef => .error .crash
      | .fld fl =>
        if fl.type == SPROTO_TINTEGER then
          decodeEntriesAux types recurse st deep rest ds size tag2
            (setField acc fl.name (applyExtra fl.extra (value : Int)))
        else if fl.type == SPROTO_TBOOLEAN then
          decodeEntriesAux types recurse st deep rest ds size tag2
            (setField acc fl.name (boolOf value))
        else .error .fail

/-- `sprotoDecode` (src/sproto.ts:1534-1653) by fuel.  The `decode`
callback's depth test (src/sproto.ts:1658-1660) only raises an `alert` and
then CONTINUES — it does not return an error — so depth imposes no bound
here (claim C7).  Returns the record and the number of consumed bytes. -/
def decodeStructGo (types : List SprotoType) :
    Nat → SprotoType → List Nat → Nat → Except DecodeError (SRecord × Nat)
  | 0, _, _, _ => .error .fail
  | fuel + 1, st, data, deep =>
    let size := data.length
    if size < 2 then .error .fail
    else
      let fn := toWord data
      if size - 2 < fn * 2 then .error .fail
      else
        let entries := (List.range fn).map fun i => toWord (data.drop (2 + 2 * i))
        let datastream := data.drop (2 + 2 * fn)
        match decodeEntriesAux types (decodeStructGo types fuel) st deep entries
            datastream (size - 2 - fn * 2) (-1) [] with
        | .error e => .error e
        | .ok (acc, szrem) => .ok (acc, size - szrem)

/-- `sp.decode` / `sp.objlen` (src/sproto.ts:1813-1886): decode a whole
buffer at depth 0; fuel `length + 1` always suffices because every nested
body is a strictly shorter byte list. -/
def sprotoDecode (types : List SprotoType) (st : SprotoType) (data : List Nat) :
    Except DecodeError (SRecord × Nat) :=
  decodeStructGo types (data.length + 1) st data 0

/-! ### Concrete schemas for the codec claims -/

/-- `type P { a 0 : integer, b 3 : integer }` as the parser would build it
(tags 0 and 3 are not contiguous, so `base = -1`; `maxn = 3` counts the
gap). -/
def typeP : SprotoType :=
  ⟨"P", 2, -1, 3, [⟨0, 0, "a", none, -1, 0⟩, ⟨3, 0, "b", none, -1, 0⟩]⟩

/-- A two-field type whose tag gap marker `(32769-1)*2+1 = 65537` exceeds
16 bits. -/
def typeGap : SprotoType :=
  ⟨"G", 2, -1, 3, [⟨0, 0, "a", none, -1, 0⟩, ⟨32770, 0, "b", none, -1, 0⟩]⟩

/-- `S1 = type { a 0 : integer }`: contiguous tags, `base = 0`, `n = 1`. -/
def typeS1 : SprotoType := ⟨"S1", 1, 0, 1, [⟨0, 0, "a", none, -1, 0⟩]⟩

/-- `S2 = S1` plus a new field `b` at the next tag 1. -/
def typeS2 : SprotoType :=
  ⟨"S2", 2, 0, 2, [⟨0, 0, "a", none, -1, 0⟩, ⟨1, 0, "b", none, -1, 0⟩]⟩

/-- `S1` plus a new field `c` at tag 2 (leaving a gap above `S1`'s
range). -/
def typeS2b : SprotoType :=
  ⟨"S2b", 2, -1, 3, [⟨0, 0, "a", none, -1, 0⟩, ⟨2, 0, "c", none, -1, 0⟩]⟩

/-- The self-recursive `type T { c 0 : T }` (the bundle parser allows a
field's subtype index to reference its own type). -/
def typeT : SprotoType := ⟨"T", 1, 0, 1, [⟨0, 4, "c", some 0, -1, 0⟩]⟩

/-- The value of `T` nested `n` structs deep. -/
def nestRec : Nat → SRecord
  | 0 => []
  | n + 1 => [("c", .vstruct (nestRec n))]

/-- The encoding of `nestRec n` under `typeT`: header count 1, slot 0,
then the length-prefixed nested body. -/
def nestBytes : Nat → List Nat
  | 0 => [0, 0]
  | n + 1 => 1 :: 0 :: 0 :: 0 :: (u32le (nestBytes n).length ++ nestBytes n)

/-! ### Claim C2: skip-unknown forward compatibility -/

/-- C2: the skip-unknown claim fails on the code.  `S2` extends `S1` (one
field `a 0 : integer`, contiguous, `base = 0`) with a higher-tagged field
`b 1`.  Encoding `{a:1, b:1}` under `S2` gives `[2,0,4,0,4,0]`; decoding
those bytes under `S1` reaches tag 1, and `findTag`'s off-by-one bound
`tag > st.n` (src/sproto.ts:672) lets it read `st.f[1]`, one past the end
— JS `undefined` — so the decoder throws (`args.tagname = f.name`,
src/sproto.ts:1577) instead of skipping.  The skip mechanism itself works
for unknown tags strictly beyond `n`: the same value encoded under `S2b`
(new field at tag 2) decodes under `S1` to exactly `{a: 1}`. -/
theorem skip_unknown_crashes_at_boundary_tag :
    sprotoEncode [] typeS2 [("a", .vint 1), ("b", .vint 1)] = some [2, 0, 4, 0, 4, 0] ∧
    sprotoDecode [] typeS1 [2, 0, 4, 0, 4, 0] = .error .crash ∧
    sprotoEncode [] typeS2b [("a", .vint 1), ("c", .vint 1)] =
      some [3, 0, 4, 0, 1, 0, 4, 0] ∧
    sprotoDecode [] typeS1 [3, 0, 4, 0, 1, 0, 4, 0] = .ok ([("a", SValue.vint 1)], 8) :=
  ⟨rfl, rfl, rfl, rfl⟩

/-! ### Claim C7: the depth-64 recursion cap -/

set_option maxRecDepth 100000 in
/-- C7: encode honours the cap — the `encode` callback returns −1 at
`deep ≥ 64` (src/sproto.ts:1430-1434), so encoding a 70-deep value fails —
but decode does NOT: its depth test (src/sproto.ts:1658-1660) raises an
`alert` without returning, so decoding a 70-deep buffer silently continues
past the limit and succeeds, contradicting the claim for decode. -/
theorem decode_continues_past_depth_limit :
    sprotoEncode [typeT] typeT (nestRec 70) = none ∧
    sprotoDecode [typeT] typeT (nestBytes 70) = .ok (nestRec 70, 562) :=
  ⟨rfl, rfl⟩

/-! ### Claim C5: tag-gap markers in the encoded header -/

/-- The decoder's header-tag walk (src/sproto.ts:1549-1558) applied to a
list of header entries: the `current_tag` values at which value slots are
materialised (odd entries advance the tag by `1 + entry/2`). -/
def walkTags : List Nat → Int → List Int
  | [], _ => []
  | e :: rest, tag =>
    if e % 2 == 1 then walkTags rest (tag + 1 + (e / 2 : Nat))
    else (tag + 1) :: walkTags rest (tag + 1)

/-- Field tags strictly ascending and above `t` (the parser invariant,
src/sproto.ts:464-467). -/
def ascFrom : Int → List SprotoField → Prop
  | _, [] => True
  | t, fl :: rest => t < (fl.tag : Int) ∧ ascFrom (fl.tag : Int) rest

theorem ascFrom_of_lt (t t2 : Int) (l : List SprotoField) (h : t < t2)
    (hasc : ascFrom t2 l) : ascFrom t l := by
  cases l with
  | nil => trivial
  | cons fl rest => exact ⟨lt_trans h hasc.1, hasc.2⟩

theorem encodeOne_inline_even (types : List SprotoType)
    (recurse : SprotoType → SRecord → Nat → Option (List Nat))
    (fl : SprotoField) (v : SValue) (deep : Nat) (w : Nat)
    (h : encodeOne types recurse fl v deep = some (.inline w)) : w % 2 = 0 := by
  unfold encodeOne at h
  repeat' (first | split at h | dsimp only at h)
  all_goals
    first
    | (injection h with h2
       first
       | (injection h2 with h3
          omega)
       | injection h2)
    | injection h

theorem encodeFields_walkTags (types : List SprotoType)
    (recurse : SprotoType → SRecord → Nat → Option (List Nat))
    (d : SRecord) (deep : Nat) :
    ∀ (fields : List SprotoField) (lasttag : Int) (entries data : List Nat),
    ascFrom lasttag fields →
    encodeFieldsAux types recurse d deep fields lasttag = some (entries, data) →
    walkTags entries lasttag =
      (fields.filter fun fl => (lookupField d fl.name).isSome).map
        fun fl => (fl.tag : Int) := by
  intro fields
  induction fields with
  | nil =>
    intro lasttag entries data _ henc
    simp only [encodeFieldsAux] at henc
    injection henc with hpair
    obtain ⟨he, _⟩ := Prod.mk.inj hpair
    subst he
    rfl
  | cons fl rest ih =>
    intro lasttag entries data hasc henc
    obtain ⟨h1, h2⟩ := hasc
    unfold encodeFieldsAux at henc
    by_cases hdeep : ENCODE_DEEPLEVEL ≤ deep
    · rw [if_pos hdeep] at henc
      cases henc
    rw [if_neg hdeep] at henc
    cases hlk : lookupField d fl.name with
    | none =>
      rw [hlk] at henc
      dsimp only at henc
      have hrec := ih lasttag entries data (ascFrom_of_lt _ _ _ h1 h2) henc
      rw [hrec, List.filter_cons]
      simp [hlk]
    | some v =>
      rw [hlk] at henc
      dsimp only at henc
      cases hone : encodeOne types recurse fl v deep with
      | none =>
        rw [hone] at henc
        cases henc
      | some slot =>
        rw [hone] at henc
        dsimp only at henc
        have hsv : (match slot with | Slot.inline v => v | Slot.data _ => 0) % 2 = 0 := by
          cases slot with
          | inline w => exact encodeOne_inline_even types recurse fl v deep w hone
          | data bs => rfl
        set sv := (match slot with | Slot.inline v => v | Slot.data _ => 0) with hsvdef
        have hsveven : (sv % 2 == 1) = false := by
          simp only [beq_eq_false_iff_ne, ne_eq]
          omega
        by_cases hg : (0 : Int) < (fl.tag : Int) - lasttag - 1
        · rw [if_pos hg] at henc
          by_cases hov : (65535 : Int) < ((fl.tag : Int) - lasttag - 1 - 1) * 2 + 1
          · rw [if_pos hov] at henc
            cases henc
          · rw [if_neg hov] at henc
            dsimp only at henc
            cases hrec : encodeFieldsAux types recurse d deep rest (fl.tag : Int) with
            | none =>
              rw [hrec] at henc
              cases henc
            | some pr =>
              obtain ⟨entries2, data2⟩ := pr
              rw [hrec] at henc
              dsimp only at henc
              injection henc with hpair
              obtain ⟨he, _⟩ := Prod.mk.inj hpair
              subst he
              obtain ⟨g, hgg⟩ : ∃ g : Nat, (fl.tag : Int) - lasttag - 1 = (g : Int) + 1 :=
                ⟨((fl.tag : Int) - lasttag - 2).toNat, by omega⟩
              have hm : ((((fl.tag : Int) - lasttag - 1) - 1) * 2 + 1).toNat = 2 * g + 1 := by
                omega
              rw [List.cons_append, List.nil_append, hm]
              have hmodd : ((2 * g + 1) % 2 == 1) = true := by
                simp only [beq_iff_eq]
                omega
              rw [show walkTags ((2 * g + 1) :: sv :: entries2) lasttag =
                  walkTags (sv :: entries2) (lasttag + 1 + ((2 * g + 1) / 2 : Nat)) by
                simp only [walkTags, hmodd, if_true]]
              have hdiv : (2 * g + 1) / 2 = g := by omega
              rw [hdiv]
              rw [show walkTags (sv :: entries2) (lasttag + 1 + (g : Int)) =
                  (lasttag + 1 + (g : Int) + 1) ::
                    walkTags entries2 (lasttag + 1 + (g : Int) + 1) by
                simp only [walkTags, hsveven, Bool.false_eq_true, if_false]]
              have htag : lasttag + 1 + (g : Int) + 1 = (fl.tag : Int) := by omega
              rw [htag, ih (fl.tag : Int) entries2 data2 h2 hrec, List.filter_cons]
              simp [hlk]
        · rw [if_neg hg] at henc
          dsimp only at henc
          cases hrec : encodeFieldsAux types recurse d deep rest (fl.tag : Int) with
          | none =>
            rw [hrec] at henc
            cases henc
          | some pr =>
            obtain ⟨entries2, data2⟩ := pr
            rw [hrec] at henc
            dsimp only at henc
            injection henc with hpair
            obtain ⟨he, _⟩ := Prod.mk.inj hpair
            subst he
            rw [List.nil_append]
            rw [show walkTags (sv :: entries2) lasttag =
                (lasttag + 1) :: walkTags entries2 (lasttag + 1) by
              simp only [walkTags, hsveven, Bool.false_eq_true, if_false]]
            have htag : lasttag + 1 = (fl.tag : Int) := by omega
            rw [htag, ih (fl.tag : Int) entries2 data2 h2 hrec, List.filter_cons]
            simp [hlk]

/-- C5: the encoder walks the present fields in tag order and, whenever
`gap = field.tag − last_emitted_tag − 1 > 0`, emits the odd marker
`(gap−1)*2+1` before the field's value slot, failing when the marker
exceeds 16 bits (src/sproto.ts:1391-1395).  First conjunct: semantic
correctness of the markers — replaying the decoder's header-tag walk over
any successfully emitted header visits exactly the tags of the present
fields.  Second conjunct: the spec's concrete example
`type P { a 0 : integer, b 3 : integer }`, `encode {a:1, b:2}` — header
count 3 with entries 4 (inline `2*(1+1)`), 3 (marker `(2−1)*2+1`), 6
(inline `2*(2+1)`).  Third conjunct: a gap of 32769 tags makes the marker
65537 > 0xFFFF and the encode fails. -/
theorem tag_gap_markers (types : List SprotoType)
    (recurse : SprotoType → SRecord → Nat → Option (List Nat))
    (d : SRecord) (deep : Nat) (fields : List SprotoField) (lasttag : Int)
    (entries data : List Nat) (hasc : ascFrom lasttag fields)
    (henc : encodeFieldsAux types recurse d deep fields lasttag =
      some (entries, data)) :
    (walkTags entries lasttag =
      (fields.filter fun fl => (lookupField d fl.name).isSome).map
        fun fl => (fl.tag : Int)) ∧
    sprotoEncode [] typeP [("a", .vint 1), ("b", .vint 2)] =
      some [3, 0, 4, 0, 3, 0, 6, 0] ∧
    sprotoEncode [] typeGap [("a", .vint 1), ("b", .vint 2)] = none :=
  ⟨encodeFields_walkTags types recurse d deep fields lasttag entries data hasc henc,
    rfl, rfl⟩

/-- Witness for `tag_gap_markers`: the header entries emitted for `typeP`
with both fields present are `[4, 3, 6]`, and the walk over them visits
tags 0 and 3. -/
theorem tag_gap_markers_witness :
    walkTags [4, 3, 6] (-1) =
      (typeP.f.filter fun fl =>
        (lookupField [("a", SValue.vint 1), ("b", SValue.vint 2)] fl.name).isSome).map
        fun fl => (fl.tag : Int) :=
  (tag_gap_markers [] (fun _ _ _ => none)
    [("a", SValue.vint 1), ("b", SValue.vint 2)] 0 typeP.f (-1) [4, 3, 6] []
    ⟨by norm_num, by norm_num, trivial⟩ (by rfl)).1

/-! ## Bundle parser (`createNew`, claim C9)

Models `countArray` (src/sproto.ts:265-287), `structField` (289-326),
`importString` (328-332), `importField` (334-414), `importType` (416-480),
`importProtocol` (482-538) and `createFromBundle`/`api.createNew`
(540-594, 1298-1308).  `structField` is modelled with the source's actual
entry reads: it takes `field = stream.slice(2)` and then reads
`field.slice(i*2 + 2)` (line 306), i.e. entry `i+1` — one slot past the
`i`-th — so its data-area validation walks the slots shifted by one;
`createFromBundle`, `importType` and the importers read the entries at
their correct offsets.  Failure (`return null` / `-1`) is `none`. -/

/-- `countArray`'s child walk; fuel bounds the loop (each child consumes
at least its 4-byte length prefix). -/
def countArrayGo : Nat → Nat → List Nat → Nat → Option Nat
  | 0, _, _, _ => none
  | fuel + 1, n, cur, rem =>
    if rem == 0 then some n
    else if rem < 4 then none
    else
      let nsz := toDword cur + 4
      if nsz > rem then none
      else countArrayGo fuel (n + 1) (cur.drop nsz) (rem - nsz)

/-- `countArray` (src/sproto.ts:265-287). -/
def countArray (stream : List Nat) : Option Nat :=
  countArrayGo (toDword stream + 1) 0 (stream.drop 4) (toDword stream)

/-- The data-walk of `structField` over its (shifted) slot reads
(src/sproto.ts:305-323). -/
def structFieldGo (stream : List Nat) : Nat → Nat → List Nat → Nat → Option Unit
  | 0, _, _, _ => some ()
  | k + 1, i, cur, rsz =>
    if toWord (stream.drop (4 + 2 * i)) != 0 then
      structFieldGo stream k (i + 1) cur rsz
    else if rsz < 4 then none
    else
      let dsz := toDword cur
      if rsz < 4 + dsz then none
      else structFieldGo stream k (i + 1) (cur.drop (4 + dsz)) (rsz - (4 + dsz))

/-- `structField` (src/sproto.ts:289-326): returns the field count after
validating the (shifted, see section comment) zero slots against the data
area. -/
def structField (stream : List Nat) (sz : Nat) : Option Nat :=
  if sz < 4 then none
  else
    let fn := toWord stream
    let header := 2 + 2 * fn
    if sz < header then none
    else
      match structFieldGo stream fn 0 (stream.drop header) (sz - header) with
      | some _ => some fn
      | none => none

/-- `importString` (src/sproto.ts:328-332): `String.fromCharCode` over the
length-prefixed bytes. -/
def importString (stream : List Nat) : String :=
  String.mk (((stream.drop 4).take (toDword stream)).map Char.ofNat)

/-- The in-progress field record of `importField` (tag and type start at
−1, src/sproto.ts:338-343). -/
structure FieldDraft where
  tag : Int
  type : Int
  name : Option String
  st : Option Nat
  key : Int
  extra : Nat

/-- The entry loop of `importField` (src/sproto.ts:352-408): meta-tags
0=name, 1=type-code (< STRUCT), 2=extra or subtype (by current type-code),
3=field-tag, 4=array flag, 5=main-index key; anything else fails. -/
def importFieldGo (typeN : Nat) (stream3 : List Nat) (fn : Nat) :
    Nat → Nat → Int → FieldDraft → Nat → Option (FieldDraft × Nat)
  | 0, _, _, f, arr => some (f, arr)
  | k + 1, i, tag0, f, arr =>
    let tag := tag0 + 1
    let value := toWord (stream3.drop (2 * i))
    if value % 2 == 1 then
      importFieldGo typeN stream3 fn k (i + 1) (tag + (value / 2 : Nat)) f arr
    else if tag == 0 then
      if value != 0 then none
      else
        importFieldGo typeN stream3 fn k (i + 1) tag
          { f with name := some (importString (stream3.drop (2 * fn))) } arr
    else if value == 0 then none
    else
      let v : Nat := value / 2 - 1
      if tag == 1 then
        if SPROTO_TSTRUCT ≤ v then none
        else importFieldGo typeN stream3 fn k (i + 1) tag { f with type := (v : Int) } arr
      else if tag == 2 then
        if f.type == (SPROTO_TINTEGER : Int) then
          importFieldGo typeN stream3 fn k (i + 1) tag { f with extra := 10 ^ v } arr
        else if f.type == (SPROTO_TSTRING : Int) then
          importFieldGo typeN stream3 fn k (i + 1) tag { f with extra := v } arr
        else if typeN ≤ v then none
        else if 0 ≤ f.type then none
        else
          importFieldGo typeN stream3 fn k (i + 1) tag
            { f with type := (SPROTO_TSTRUCT : Int), st := some v } arr
      else if tag == 3 then
        importFieldGo typeN stream3 fn k (i + 1) tag { f with tag := (v : Int) } arr
      else if tag == 4 then
        importFieldGo typeN stream3 fn k (i + 1) tag f
          (if v != 0 then SPROTO_TARRAY else arr)
      else if tag == 5 then
        importFieldGo typeN stream3 fn k (i + 1) tag { f with key := (v : Int) } arr
      else none

/-- `importField` (src/sproto.ts:334-414): returns the parsed field and
the remaining stream. -/
def importField (typeN : Nat) (stream : List Nat) :
    Option (SprotoField × List Nat) :=
  let sz := toDword stream
  let stream2 := stream.drop 4
  let result := stream2.drop sz
  match structField stream2 sz with
  | none => none
  | some fn =>
    match importFieldGo typeN (stream2.drop 2) fn fn 0 (-1)
        ⟨-1, -1, none, none, -1, 0⟩ 0 with
    | none => none
    | some (f, arr) =>
      if f.tag < 0 ∨ f.type < 0 then none
      else
        match f.name with
        | none => none
        | some nm => some (⟨f.tag.toNat, f.type.toNat ||| arr, nm, f.st, f.key, f.extra⟩, result)

/-- The field loop of `importType` (src/sproto.ts:454-472): monotonic tag
check, `maxn` counting the implicit gaps. -/
def importFieldsGo (typeN : Nat) :
    Nat → List Nat → Int → Nat → Option (List SprotoField × Nat)
  | 0, _, _, maxn => some ([], maxn)
  | k + 1, s, last, maxn =>
    match importField typeN s with
    | none => none
    | some (fl, rest) =>
      if (fl.tag : Int) ≤ last then none
      else
        let maxn2 := if last + 1 < (fl.tag : Int) then maxn + 1 else maxn
        match importFieldsGo typeN k rest (fl.tag : Int) maxn2 with
        | none => none
        | some (fls, m) => some (fl :: fls, m)

/-- `importType` (src/sproto.ts:416-480).  With a present but empty field
array (`fn = 2`, zero children) the source dereferences `t.f[0]` of an
empty array and throws; that corner is modelled as a failure. -/
def importType (typeN : Nat) (stream : List Nat) :
    Option (SprotoType × List Nat) :=
  let sz := toDword stream
  let stream2 := stream.drop 4
  let result := stream2.drop sz
  match structField stream2 sz with
  | none => none
  | some fn =>
    if fn == 0 ∨ 2 < fn then none
    else if (List.range fn).any (fun i => toWord (stream2.drop (2 + 2 * i)) != 0) then
      none
    else
      let stream4 := stream2.drop (2 + fn * 2)
      let nm := importString stream4
      if fn == 1 then some (⟨nm, 0, 0, 0, []⟩, result)
      else
        let stream5 := stream4.drop (toDword stream4 + 4)
        match countArray stream5 with
        | none => none
        | some n =>
          match importFieldsGo typeN n (stream5.drop 4) (-1) n with
          | none => none
          | some (fls, maxn) =>
            match fls.head?, fls.getLast? with
            | some f0, some flast =>
              let base : Int :=
                if flast.tag - f0.tag + 1 ≠ n then -1 else (f0.tag : Int)
              some (⟨nm, n, base, maxn, fls⟩, result)
            | _, _ => none

/-- The parsed protocol record (`SprotoProtocol`, src/sproto.ts:84-89;
`p.p[0]`/`p.p[1]` are the request/response types). -/
structure SprotoProtocol where
  name : String
  tag : Int
  request : Option SprotoType
  response : Option SprotoType
  confirm : Int
deriving DecidableEq

/-- Mutable protocol state during `importProtocol`'s entry loop. -/
structure ProtoDraft where
  name : Option String
  tag : Int
  request : Option SprotoType
  response : Option SprotoType
  confirm : Int

/-- The entry loop of `importProtocol` (src/sproto.ts:496-532).  It
switches on the entry INDEX `i` (not the decoded tag): 0=name, 1=tag,
2=request type-id (rejected when `value >= s.type_n`), 3=response type-id
— rejected only when `value > s.type_n`, so the one-past-the-end id
`s.type_n` slips through and `s.type[value] || null` silently yields
`null` — 4=confirm. -/
def importProtocolGo (types : List SprotoType) (typeN : Nat) (stream3 : List Nat)
    (fn : Nat) : Nat → Nat → Int → ProtoDraft → Option ProtoDraft
  | 0, _, _, p => some p
  | k + 1, i, tag, p =>
    let value := toWord (stream3.drop (2 * i))
    if value % 2 == 1 then
      importProtocolGo types typeN stream3 fn k (i + 1) (tag + ((value - 1) / 2 : Nat) + 1) p
    else
      let v : Int := (value / 2 : Nat) - 1
      if i == 0 then
        if v != -1 then none
        else
          importProtocolGo types typeN stream3 fn k (i + 1) (tag + 1)
            { p with name := some (importString (stream3.drop (2 * fn))) }
      else if i == 1 then
        if v < 0 then none
        else importProtocolGo types typeN stream3 fn k (i + 1) (tag + 1) { p with tag := v }
      else if i == 2 then
        if v < 0 ∨ (typeN : Int) ≤ v then none
        else
          importProtocolGo types typeN stream3 fn k (i + 1) (tag + 1)
            { p with request := types.get? v.toNat }
      else if i == 3 then
        if v < 0 ∨ (typeN : Int) < v then none
        else
          importProtocolGo types typeN stream3 fn k (i + 1) (tag + 1)
            { p with response := types.get? v.toNat }
      else if i == 4 then
        importProtocolGo types typeN stream3 fn k (i + 1) (tag + 1) { p with confirm := v }
      else none

/-- `importProtocol` (src/sproto.ts:482-538). -/
def importProtocol (types : List SprotoType) (typeN : Nat) (stream : List Nat) :
    Option (SprotoProtocol × List Nat) :=
  let sz := toDword stream
  let stream2 := stream.drop 4
  let result := stream2.drop sz
  match structField stream2 sz with
  | none => none
  | some fn =>
    match importProtocolGo types typeN (stream2.drop 2) fn fn 0 0
        ⟨none, -1, none, none, 0⟩ with
    | none => none
    | some p =>
      match p.name with
      | none => none
      | some nm => if p.tag < 0 then none else some (⟨nm, p.tag, p.request, p.response, p.confirm⟩, result)

def importTypesGo (typeN : Nat) : Nat → List Nat → Option (List SprotoType)
  | 0, _ => some []
  | k + 1, s =>
    match importType typeN s with
    | none => none
    | some (t, rest) => (importTypesGo typeN k rest).map (t :: ·)

def importProtosGo (types : List SprotoType) (typeN : Nat) :
    Nat → List Nat → Option (List SprotoProtocol)
  | 0, _ => some []
  | k + 1, s =>
    match importProtocol types typeN s with
    | none => none
    | some (p, rest) => (importProtosGo types typeN k rest).map (p :: ·)

/-- The parsed schema instance (`SprotoInstance`, src/sproto.ts:106-123,
the fields `createFromBundle` fills). -/
structure SprotoInstance where
  type_n : Nat
  protocol_n : Nat
  types : List SprotoType
  protos : List SprotoProtocol
deriving DecidableEq

/-- `createFromBundle` + `api.createNew` (src/sproto.ts:540-594,
1298-1308): a `null` result (`none`) is the `MalformedSchema` failure. -/
def createNew (binsch : List Nat) : Option SprotoInstance :=
  match structField binsch binsch.length with
  | none => none
  | some fn =>
    if 2 < fn then none
    else
      let stream := binsch.drop 2
      let content := stream.drop (fn * 2)
      if fn == 0 then some ⟨0, 0, [], []⟩
      else if toWord stream != 0 then none
      else
        match countArray content with
        | none => none
        | some n0 =>
          let typedata := content.drop 4
          if fn == 1 then
            match importTypesGo n0 n0 typedata with
            | none => none
            | some ts => some ⟨n0, 0, ts, []⟩
          else if toWord (stream.drop 2) != 0 then none
          else
            let content1 := content.drop (toDword content + 4)
            match countArray content1 with
            | none => none
            | some n1 =>
              let protodata := content1.drop 4
              match importTypesGo n0 n0 typedata with
              | none => none
              | some ts =>
                match importProtosGo ts n0 n1 protodata with
                | none => none
                | some ps => some ⟨n0, n1, ts, ps⟩

/-- A 46-byte schema bundle: one type `t` (no fields) and one protocol
`p` with tag 1, request type-id 0 and response type-id 1 — the
one-past-the-end index, since the bundle declares exactly one type.  The
protocol struct's entry slots are 4 (name), 0, 4 (tag 1), 2 (request id
0), 4 (response id 1). -/
def bundleResponseIdEqTypeN : List Nat :=
  [2,0, 0,0, 0,0,
   13,0,0,0,
   9,0,0,0,
   1,0, 0,0, 1,0,0,0, 116,
   19,0,0,0,
   15,0,0,0,
   4,0, 0,0, 4,0, 2,0, 4,0,
   1,0,0,0, 112]

/-- The same bundle with the response type-id raised to 2 (entry slot 6),
now strictly greater than `type_n`. -/
def bundleResponseIdGtTypeN : List Nat :=
  [2,0, 0,0, 0,0,
   13,0,0,0,
   9,0,0,0,
   1,0, 0,0, 1,0,0,0, 116,
   19,0,0,0,
   15,0,0,0,
   4,0, 0,0, 4,0, 2,0, 6,0,
   1,0,0,0, 112]

/-- C9: FALSE of the code — `createNew` does NOT fail for every bundle
whose protocol response type-id is `≥` the number of types.
`importProtocol`'s response case tests `value > s.type_n` instead of `≥`
(src/sproto.ts:522), so the one-past-the-end id `type_n` itself is
accepted and `s.type[value] || null` silently turns the dangling
reference into a protocol with no response type.  Concretely: the
46-byte bundle whose single protocol names response type-id 1 while
declaring only one type (`type_n = 1`) parses successfully, with
`response = none` — indistinguishable from a deliberately response-less
protocol — whereas the same bundle with response type-id 2 is rejected.
The spec itself (section 9, note i) flags this line as a bug and says a
verifier should treat id `≥ type_n` as `MalformedSchema`. -/
theorem createNew_accepts_one_past_end_response_id :
    createNew bundleResponseIdEqTypeN =
      some ⟨1, 1, [⟨"t", 0, 0, 0, []⟩],
        [⟨"p", 1, some ⟨"t", 0, 0, 0, []⟩, none, 0⟩]⟩ ∧
    createNew bundleResponseIdGtTypeN = none := ⟨rfl, rfl⟩
